import Mathlib

/-!
Shallow embedding of the chunking and ingestion pipeline of the
chatgpt-retrieval-plugin repository (services/chunk_text_simple.py,
services/chunk_sbd.py, services/chunks.py, datastore/datastore.py,
datastore/providers/hnsqlite_datastore.py, models/models.py), together
with theorems settling the frozen claims about it.

Python strings are modelled as lists of characters (PyStr).  The external
tokenizer (tiktoken), the external sentence segmenter (pysbd) and the
external timestamp normalizer are parameters of the definitions, exactly
as the spec treats them (external collaborators used only through their
interface).  Machine integers do not overflow in any of the modelled
code paths, so Nat/Int are used directly.
-/

set_option maxRecDepth 2048

deriving instance DecidableEq for Except

/-- Python strings as lists of characters. -/
abbrev PyStr := List Char

/-- The ASCII whitespace characters recognised by Python str.isspace /
str.strip for the inputs modelled here. -/
def pyIsSpaceChar (c : Char) : Bool :=
  c = ' ' || c = '\n' || c = '\t' || c = '\r' || c = '\x0b' || c = '\x0c'

/-- Python s.isspace(): true iff the string is nonempty and all characters
are whitespace. -/
def pyIsSpace (s : PyStr) : Bool :=
  !s.isEmpty && s.all pyIsSpaceChar

/-- Python `not s or s.isspace()`: empty or whitespace-only. -/
def pyEmptyOrSpace (s : PyStr) : Bool :=
  s.isEmpty || pyIsSpace s

/-- Python s.replace("\n", " "). -/
def pyReplaceNL (s : PyStr) : PyStr :=
  s.map (fun c => if c = '\n' then ' ' else c)

/-- Python s.strip(): drop leading and trailing whitespace. -/
def pyStrip (s : PyStr) : PyStr :=
  ((s.dropWhile pyIsSpaceChar).reverse.dropWhile pyIsSpaceChar).reverse

/-- The cleaning step applied to candidate chunks in the source:
`chunk_text.replace("\n", " ").strip()`. -/
def pyClean (s : PyStr) : PyStr :=
  pyStrip (pyReplaceNL s)

/-- Python s.rfind(c): index of the last occurrence of c, or -1. -/
def pyRfind (s : PyStr) (c : Char) : Int :=
  match s.reverse.findIdx? (fun x => x = c) with
  | none => -1
  | some i => (s.length : Int) - 1 - (i : Int)

/-- Python " ".join(lines). -/
def joinSpace (lines : List PyStr) : PyStr :=
  List.intercalate [' '] lines

/-- Python lst[-k:] (the last k elements; the whole list when k >= len). -/
def takeLastN (k : Nat) (l : List α) : List α :=
  l.drop (l.length - k)

/-- Python s.split('\n').  Always returns at least one (possibly empty)
piece. -/
def pySplitNL : PyStr → List PyStr
  | [] => [[]]
  | c :: rest =>
    let r := pySplitNL rest
    if c = '\n' then [] :: r
    else
      match r with
      | [] => [[c]]
      | h :: t => (c :: h) :: t

/-- The injected chunking configuration (server/config.py ChunkConfig). -/
structure ChunkConfig where
  chunk_size : Nat
  min_chunk_size_chars : Nat
  min_chunk_length_to_embed : Nat
  embeddings_batch_size : Nat
  max_num_chunks : Nat

/-- The default configuration values of server/config.py. -/
def defaultChunkConfig : ChunkConfig :=
  { chunk_size := 200
    min_chunk_size_chars := 350
    min_chunk_length_to_embed := 5
    embeddings_batch_size := 128
    max_num_chunks := 10000 }

/-- The external tokenizer adapter (tiktoken cl100k_base in the source):
encode maps text to a token sequence, decode maps tokens back to text. -/
structure Tokenizer where
  encode : PyStr → List Nat
  decode : List Nat → PyStr

/-- Python `chunk_token_size or CHUNK_SIZE` (0 and None are both falsy). -/
def effectiveChunkSize (cfg : ChunkConfig) : Option Nat → Nat
  | none => cfg.chunk_size
  | some 0 => cfg.chunk_size
  | some (n + 1) => n + 1

/-- The loop state of get_text_chunks: remaining tokens, emitted chunks,
and the chunk counter. -/
structure GtcState where
  tokens : List Nat
  chunks : List PyStr
  numChunks : Nat

/-- One iteration of the while loop of get_text_chunks
(services/chunk_text_simple.py lines 52-90), entered with
tokens nonempty and numChunks < MAX_NUM_CHUNKS. -/
def gtcIter (cfg : ChunkConfig) (tok : Tokenizer) (chunkSize : Nat)
    (st : GtcState) : GtcState :=
  let chunk := st.tokens.take chunkSize
  let chunkText := tok.decode chunk
  if pyEmptyOrSpace chunkText then
    -- whitespace-skip branch: drop the decoded tokens and continue
    { st with tokens := st.tokens.drop chunk.length }
  else
    let lastPunctuation :=
      max (max (pyRfind chunkText '.') (pyRfind chunkText '?'))
        (max (pyRfind chunkText '!') (pyRfind chunkText '\n'))
    let chunkText :=
      if lastPunctuation ≠ -1 ∧ lastPunctuation > (cfg.min_chunk_size_chars : Int) then
        chunkText.take (lastPunctuation.toNat + 1)
      else chunkText
    let cleaned := pyClean chunkText
    let chunks :=
      if cleaned.length > cfg.min_chunk_length_to_embed then
        st.chunks ++ [cleaned]
      else st.chunks
    { tokens := st.tokens.drop (tok.encode chunkText).length
      chunks := chunks
      numChunks := st.numChunks + 1 }

/-- The while loop of get_text_chunks, with explicit fuel.  Returns none
only when the fuel runs out with the loop condition still true. -/
def gtcLoop (cfg : ChunkConfig) (tok : Tokenizer) (chunkSize : Nat) :
    Nat → GtcState → Option GtcState
  | 0, st =>
    if st.tokens.isEmpty || ¬ st.numChunks < cfg.max_num_chunks then some st
    else none
  | fuel + 1, st =>
    if st.tokens.isEmpty || ¬ st.numChunks < cfg.max_num_chunks then some st
    else gtcLoop cfg tok chunkSize fuel (gtcIter cfg tok chunkSize st)

/-- get_text_chunks (services/chunk_text_simple.py): the Token-Window
Chunker.  The fuel tokens.length + max_num_chunks + 1 is sufficient
whenever the effective chunk size is positive (gtc_fuel_sufficient). -/
def get_text_chunks (cfg : ChunkConfig) (tok : Tokenizer) (text : PyStr)
    (chunkTokenSize : Option Nat) : Option (List PyStr) :=
  if pyEmptyOrSpace text then some []
  else
    match gtcLoop cfg tok (effectiveChunkSize cfg chunkTokenSize)
        ((tok.encode text).length + cfg.max_num_chunks + 1)
        { tokens := tok.encode text, chunks := [], numChunks := 0 } with
    | none => none
    | some st =>
      -- handle the remaining tokens
      if st.tokens.isEmpty then some st.chunks
      else
        if (pyClean (tok.decode st.tokens)).length > cfg.min_chunk_length_to_embed then
          some (st.chunks ++ [pyClean (tok.decode st.tokens)])
        else some st.chunks

/-!
## Sentence-Boundary Chunker (services/chunk_sbd.py)

The pysbd segmenter is an external collaborator; it is passed in as a
function `segment : PyStr → List PyStr` (the language / pdf parameters of
chunk_text_pysbd only select which pysbd.Segmenter is constructed, so they
are absorbed into this parameter).  `tokenizerFunc` models the
tokenizer_func argument (tokenizer.encode at the call site).

The subchunk generator of the source contains
`for text, tokens in get_text_chunks(s, max_tokens)`, where
get_text_chunks returns a list of plain strings: iterating it unpacks
each chunk string into two variables, which raises ValueError for any
chunk whose length is not 2, and for a length-2 chunk binds `tokens` to a
character so that the later `s_tokens//2` raises TypeError.  The model
therefore returns Except.error () when the consumer loop pulls the first
chunk of an oversized segment's nonempty expansion; the exception aborts
the whole call in the source.  The generator is lazy: segments that are
never pulled — in particular everything after the cap break — are never
expanded, so a cap-hit run returns normally even when a later segment is
oversized.
-/

/-- The accumulator state of the chunk_text_pysbd loop: result chunks and
token counts, current segment list, current token-count list, and the
running token sum. -/
structure PState where
  resC : List PyStr
  resT : List Nat
  curL : List PyStr
  curT : List Nat
  sumT : Nat

/-- Closing the running chunk (chunk_sbd.py lines 46-51): emit the joined
segments and their token sum, keep the trailing 2 segments as overlap if
the closed chunk had more than 10 segments, otherwise 1. -/
def pysbdClose (st : PState) : PState :=
  let overlap := if st.curL.length > 10 then 2 else 1
  let curL := takeLastN overlap st.curL
  let curT := takeLastN overlap st.curT
  { resC := st.resC ++ [joinSpace st.curL]
    resT := st.resT ++ [st.curT.sum]
    curL := curL
    curT := curT
    sumT := curT.sum }

/-- Appending the next segment to the running chunk
(chunk_sbd.py lines 56-58). -/
def pysbdPush (st : PState) (s : PyStr) (t : Nat) : PState :=
  { st with
    sumT := st.sumT + t
    curL := st.curL ++ [s]
    curT := st.curT ++ [t] }

/-- The for loop of chunk_text_pysbd (chunk_sbd.py lines 44-58) over an
explicit list of already-yielded (text, token count) items — the shape
the run takes when no segment triggers the oversized fallback: on the
half-weighted look-ahead condition close the running chunk; when the
result has reached MAX_NUM_CHUNKS, clear the current chunk and break. -/
def pysbdLoop (maxNumChunks target : Nat) (st : PState) :
    List (PyStr × Nat) → PState
  | [] => st
  | (s, t) :: rest =>
    if st.sumT + t / 2 > target then
      let st1 := pysbdClose st
      if maxNumChunks ≤ st1.resC.length then
        { st1 with curL := [], curT := [] }
      else pysbdLoop maxNumChunks target (pysbdPush st1 s t) rest
    else pysbdLoop maxNumChunks target (pysbdPush st s t) rest

/-- The for loop of chunk_text_pysbd consuming the LAZY subchunk
generator (chunk_sbd.py lines 36-58).  The generator is advanced one item
at a time, so the cap break abandons it and segments past the break point
are never expanded.  A segment whose token count is below max_tokens is
yielded as (s, s_tokens); pulling the first item of an oversized
segment's expansion raises — get_text_chunks returns a list of plain
strings, so unpacking a piece of length other than 2 raises ValueError in
the generator, and a length-2 piece binds s_tokens to a character, making
the consumer's s_tokens//2 raise TypeError — while an oversized segment
whose expansion is empty yields nothing and the loop moves on.  The
per-segment token counts are computed by a pure function, so computing
them on demand is indistinguishable from the source's upfront
segment_tokens list (line 32); get_text_chunks runs on the global
tiktoken tokenizer (tok), the yielded counts on the caller's
tokenizer_func (tokf). -/
def pysbdSegs (cfg : ChunkConfig) (tok : Tokenizer)
    (maxNumChunks target maxTokens : Nat) (tokf : PyStr → List Nat) :
    List PyStr → PState → Except Unit PState
  | [], st => .ok st
  | s :: rest, st =>
    if (tokf s).length < maxTokens then
      if st.sumT + (tokf s).length / 2 > target then
        if maxNumChunks ≤ (pysbdClose st).resC.length then
          .ok { pysbdClose st with curL := [], curT := [] }
        else pysbdSegs cfg tok maxNumChunks target maxTokens tokf rest
          (pysbdPush (pysbdClose st) s (tokf s).length)
      else pysbdSegs cfg tok maxNumChunks target maxTokens tokf rest
        (pysbdPush st s (tokf s).length)
    else
      match get_text_chunks cfg tok s (some maxTokens) with
      | none => .error ()
      | some [] => pysbdSegs cfg tok maxNumChunks target maxTokens tokf rest st
      | some (_ :: _) => .error ()

/-- chunk_text_pysbd (services/chunk_sbd.py): segment the text, pull the
segments through the subchunk generator one at a time, accumulate them
into chunks around target_tokens, and always append the final accumulated
chunk. -/
def chunk_text_pysbd (cfg : ChunkConfig) (tok : Tokenizer)
    (segment : PyStr → List PyStr) (tokenizerFunc : PyStr → List Nat)
    (text : PyStr) (targetTokens : Nat) (maxTokens : Nat) :
    Except Unit (List PyStr × List Nat) :=
  match pysbdSegs cfg tok cfg.max_num_chunks targetTokens maxTokens
      tokenizerFunc (segment text)
      { resC := [], resT := [], curL := [], curT := [], sumT := 0 } with
  | .error e => .error e
  | .ok st => .ok (st.resC ++ [joinSpace st.curL], st.resT ++ [st.curT.sum])

/-!
## Tabular Chunker (services/chunks.py get_csv_chunks)

The max_chars budget is computed by CPython in IEEE binary64 arithmetic:
`token_count / chars` is the correctly rounded double quotient of the two
ints, the int numerator of `max_tokens / tokens_per_char` is converted to
double before the IEEE division, and `int()` truncates toward zero.  The
model implements round-to-nearest, ties-to-even on exact integer
arithmetic; overflow and subnormal underflow cannot occur at the
magnitudes the chunker feeds in and are not modelled.
-/

/-- Fuel-driven binary logarithm; fuel n always suffices since the
argument halves every step. -/
def log2F : Nat → Nat → Nat
  | 0, _ => 0
  | fuel + 1, n => if n ≤ 1 then 0 else log2F fuel (n / 2) + 1

/-- Number of binary digits of n (0 for 0). -/
def natBits (n : Nat) : Nat := if n = 0 then 0 else log2F n n + 1

/-- A nonnegative finite binary64 value as an exact dyadic pair
(m, e) standing for m * 2^e, with 2^52 ≤ m ≤ 2^53 when nonzero, or
(0, 0) for zero. -/
abbrev F64 := Nat × Int

/-- Round the exact rational a / b (b ≥ 1) to the nearest binary64, ties
to even: scale a/b so its floor q keeps at least 53 significant bits, cut
q after 52 bits, and round on the cut-off tail lo plus the division
remainder r/b, comparing 2*(lo*b + r) against 2^shift * b. -/
def roundDiv53 (a b : Nat) : F64 :=
  if a = 0 then (0, 0) else
  let s := 64 + natBits b
  let P := a * 2 ^ s
  let q := P / b
  let r := P % b
  let t := natBits q - 1
  let shift := t - 52
  let hi := q / 2 ^ shift
  let lo := q % 2 ^ shift
  let rem2 := 2 * (lo * b + r)
  let half2 := 2 ^ shift * b
  let m := if rem2 < half2 then hi
           else if half2 < rem2 then hi + 1
           else hi + hi % 2
  (m, (shift : Int) - (s : Int))

/-- CPython's conversion of a Python int to binary64 (applied to the int
operand of a mixed int/float division). -/
def floatOfNat (n : Nat) : F64 := roundDiv53 n 1

/-- IEEE binary64 division of two nonnegative values (divisor nonzero in
every reachable call): the correctly rounded exact quotient. -/
def floatDiv (x y : F64) : F64 :=
  let q := roundDiv53 x.1 y.1
  (q.1, q.2 + x.2 - y.2)

/-- Python int() on a nonnegative binary64: truncation toward zero. -/
def floatFloor (x : F64) : Nat :=
  match x.2 with
  | .ofNat k => x.1 * 2 ^ k
  | .negSucc k => x.1 / 2 ^ (k + 1)

/-- max_chars = int(max_tokens / (token_count / chars)) exactly as
CPython evaluates it (chunks.py lines 115-116): two correctly rounded
binary64 divisions, then truncation. -/
def csvMaxChars (tokenCount chars maxTokens : Nat) : Nat :=
  floatFloor (floatDiv (floatOfNat maxTokens) (roundDiv53 tokenCount chars))

/-- Structural worker for splitEvery: the fuel only needs to reach the
list length (every step drops at least one element when n is positive). -/
def splitEveryAux (n : Nat) : Nat → List α → List (List α)
  | _, [] => []
  | 0, _ :: _ => []
  | fuel + 1, l@(_ :: _) => l.take n :: splitEveryAux n fuel (l.drop n)

/-- Python `range(0, len(record), max_chars)` slicing: split a list into
consecutive pieces of at most n elements.  The n = 0 case is unreachable
behind the caller's guard (range with step 0 raises in Python). -/
def splitEvery (n : Nat) (l : List α) : List (List α) :=
  if n = 0 then [] else splitEveryAux n l.length l

/-- ceil(a / b) on naturals, as used by the claim. -/
def ceilNat (a b : Nat) : Nat := (a + b - 1) / b

/-- get_csv_chunks (services/chunks.py lines 108-127): each record is one
chunk unless its token count exceeds CHUNK_SIZE, in which case it is cut
into consecutive substrings of at most
max_chars = int(max_tokens / (token_count / chars)) characters, computed
in binary64 arithmetic (csvMaxChars), each piece re-encoded for its own
token count.  The error cases model Python's ZeroDivisionError (empty
oversized record) and the range() step-0 ValueError (max_chars = 0). -/
def get_csv_chunks (cfg : ChunkConfig) (tok : Tokenizer)
    (records : List PyStr) (maxTokens : Nat) :
    Except Unit (List PyStr × List Nat) :=
  match records with
  | [] => .ok ([], [])
  | record :: rest =>
    match get_csv_chunks cfg tok rest maxTokens with
    | .error e => .error e
    | .ok (chunks, tokens) =>
      let tokenCount := (tok.encode record).length
      if tokenCount > cfg.chunk_size then
        let chars := record.length
        if chars = 0 then .error ()
        else
          let maxChars := csvMaxChars tokenCount chars maxTokens
          if maxChars = 0 then .error ()
          else
            let pieces := splitEvery maxChars record
            .ok (pieces ++ chunks,
              pieces.map (fun c => (tok.encode c).length) ++ tokens)
      else
        .ok (record :: chunks, tokenCount :: tokens)

/-!
## Data model (models/models.py)

Only the fields the verified claims touch are carried; pydantic plumbing
(validators, json parsing) and fields never read by the modelled code
paths (embedding vectors, doc_id, reference_url, token_count stamping on
the Document) are omitted.  The author field is modelled as an optional
string (the list-of-strings variant is never produced by the modelled
paths).
-/

inductive Source
  | email
  | file
  | chat
  | web
deriving DecidableEq

/-- The string value of the Source str-enum. -/
def sourceStr : Source → PyStr
  | .email => "email".data
  | .file => "file".data
  | .chat => "chat".data
  | .web => "web".data

structure DocumentMetadata where
  source : Option Source
  source_id : Option PyStr
  url : Option PyStr
  created_at : Option PyStr
  author : Option PyStr
  title : Option PyStr
  description : Option PyStr
  language : Option PyStr
  version : Option PyStr
deriving DecidableEq

/-- DocumentMetadata() with every optional field absent. -/
def emptyDocumentMetadata : DocumentMetadata :=
  { source := none, source_id := none, url := none, created_at := none
    author := none, title := none, description := none, language := none
    version := none }

structure DocumentChunkMetadata extends DocumentMetadata where
  document_id : PyStr
deriving DecidableEq

structure DocumentChunk where
  id : PyStr
  text : PyStr
  metadata : DocumentChunkMetadata
  token_count : Option Nat
deriving DecidableEq

structure Document where
  id : PyStr
  text : PyStr
  metadata : Option DocumentMetadata
  mimetype : Option PyStr
deriving DecidableEq

structure DocumentMetadataFilter where
  document_id : Option PyStr
  source : Option Source
  source_id : Option PyStr
  author : Option PyStr
  start_date : Option PyStr
  end_date : Option PyStr
  title : Option PyStr
  url : Option PyStr
deriving DecidableEq

/-- The filter with every field absent. -/
def emptyFilter : DocumentMetadataFilter :=
  { document_id := none, source := none, source_id := none, author := none
    start_date := none, end_date := none, title := none, url := none }

/-- The filter DocumentMetadataFilter(document_id=id) built by
DataStore.upsert before each per-document delete. -/
def filterOfDocId (docId : PyStr) : DocumentMetadataFilter :=
  { emptyFilter with document_id := some docId }

/-!
## hnsqlite filter and metadata translation
(datastore/providers/hnsqlite_datastore.py)

Python dicts with string keys are modelled as association lists in
insertion order with distinct keys.  Metadata values are strings or
(for created_at) normalized unix timestamps.  The timestamp normalizer
to_unix_timestamp lives in services/date.py, which is not part of the
sources here; it is taken as a parameter `ts`.
-/

inductive MetaVal
  | s (v : PyStr)
  | n (v : Nat)
deriving DecidableEq

/-- A value of the hnsqlite filter dict: an exact-equality value, or the
created_at range dict with optional $gte / $lte bounds. -/
inductive HVal
  | eq (v : MetaVal)
  | range (lo hi : Option Nat)
deriving DecidableEq

abbrev HDict := List (String × HVal)

def hdictHasKey (d : HDict) (k : String) : Bool :=
  d.any (fun e => e.1 = k)

def hdictGet (d : HDict) (k : String) : Option HVal :=
  (d.find? (fun e => e.1 = k)).map (fun e => e.2)

/-- `hnsqlite_filter["created_at"] = hnsqlite_filter.get("created_at", {})`
followed by setting the $gte bound. -/
def hdictSetGte (d : HDict) (g : Nat) : HDict :=
  if hdictHasKey d "created_at" then
    d.map (fun e =>
      if e.1 = "created_at" then
        (e.1, match e.2 with
          | .range _ hi => .range (some g) hi
          | v => v)
      else e)
  else d ++ [("created_at", .range (some g) none)]

/-- Same for the $lte bound. -/
def hdictSetLte (d : HDict) (l : Nat) : HDict :=
  if hdictHasKey d "created_at" then
    d.map (fun e =>
      if e.1 = "created_at" then
        (e.1, match e.2 with
          | .range lo _ => .range lo (some l)
          | v => v)
      else e)
  else d ++ [("created_at", .range none (some l))]

/-- filter.dict().items() in pydantic field-declaration order, the Source
enum rendered as its string value. -/
def filterItems (f : DocumentMetadataFilter) : List (String × Option PyStr) :=
  [("document_id", f.document_id),
   ("source", f.source.map sourceStr),
   ("source_id", f.source_id),
   ("author", f.author),
   ("start_date", f.start_date),
   ("end_date", f.end_date),
   ("title", f.title),
   ("url", f.url)]

/-- The body of the field loop of _get_hnsqlite_filter: absent fields are
skipped, start_date / end_date become created_at bounds through the
timestamp normalizer, every other present field becomes an equality. -/
def filterStep (ts : PyStr → Nat) (d : HDict) : String × Option PyStr → HDict
  | (_, none) => d
  | (k, some v) =>
    if k = "start_date" then hdictSetGte d (ts v)
    else if k = "end_date" then hdictSetLte d (ts v)
    else d ++ [(k, .eq (.s v))]

/-- _get_hnsqlite_filter (hnsqlite_datastore.py lines 163-185). -/
def getHnsqliteFilter (ts : PyStr → Nat) :
    Option DocumentMetadataFilter → HDict
  | none => []
  | some f => (filterItems f).foldl (filterStep ts) []

/-- metadata.dict().items() of a DocumentChunkMetadata, in field order
(parent DocumentMetadata fields first, then document_id). -/
def metadataItems (m : DocumentChunkMetadata) : List (String × Option PyStr) :=
  [("source", m.source.map sourceStr),
   ("source_id", m.source_id),
   ("url", m.url),
   ("created_at", m.created_at),
   ("author", m.author),
   ("title", m.title),
   ("description", m.description),
   ("language", m.language),
   ("version", m.version),
   ("document_id", some m.document_id)]

/-- The dict entry contributed by one metadata field in
_get_hnsqlite_metadata: nothing for an absent field, a timestamp for
created_at, the raw value otherwise. -/
def metaEntryOf (ts : PyStr → Nat) (kv : String × Option PyStr) :
    List (String × MetaVal) :=
  match kv.2 with
  | none => []
  | some v =>
    if kv.1 = "created_at" then [(kv.1, .n (ts v))]
    else [(kv.1, .s v)]

/-- _get_hnsqlite_metadata (hnsqlite_datastore.py lines 187-204): keep
present fields, converting created_at to a unix timestamp. -/
def hnsqliteMetadata (ts : PyStr → Nat) (m : DocumentChunkMetadata) :
    List (String × MetaVal) :=
  (metadataItems m).foldl (fun d kv => d ++ metaEntryOf ts kv) []

def mdictLookup (m : List (String × MetaVal)) (k : String) : Option MetaVal :=
  (m.find? (fun e => e.1 = k)).map (fun e => e.2)

/-- Modelled from the spec: the hnsqlite backend (an external collaborator,
spec section 6 store.search/store.delete) evaluates one filter-dict entry
against a chunk's metadata dict — an equality entry requires the stored
value to equal the filter value, the created_at range entry requires a
stored timestamp inside the inclusive $gte/$lte bounds (spec section 4.5:
start_date is an inclusive lower bound, end_date an inclusive upper
bound). -/
def entryMatches (m : List (String × MetaVal)) : String × HVal → Bool
  | (k, .eq v) => mdictLookup m k = some v
  | (k, .range lo hi) =>
    match mdictLookup m k with
    | some (.n c) => lo.all (fun g => g ≤ c) && hi.all (fun l => c ≤ l)
    | _ => false

/-- Modelled from the spec: a chunk matches a filter dict when it matches
every entry; the empty dict matches every chunk (spec section 3: an empty
filter matches every chunk). -/
def hdictMatches (d : HDict) (m : List (String × MetaVal)) : Bool :=
  d.all (entryMatches m)

/-!
## The hnsqlite-backed store (hnsqlite_datastore.py)

Modelled from the spec: the hnsqlite Collection itself is an external
collaborator (spec section 6: store.add, store.delete, store.count); it is
modelled as the list of stored chunks in insertion order, add_embeddings
appends, delete(delete_all=True) empties, delete(doc_ids=...) removes the
chunks whose doc_id is listed, delete(filter=...) removes the chunks
matching the filter dict.
-/

structure StoredChunk where
  chunkId : PyStr
  docId : PyStr
  text : PyStr
  metadata : List (String × MetaVal)
deriving DecidableEq

abbrev Store := List StoredChunk

def collectionDeleteDocIds (st : Store) (ids : List PyStr) : Store :=
  st.filter (fun c => !ids.contains c.docId)

def collectionDeleteFilter (st : Store) (d : HDict) : Store :=
  st.filter (fun c => !hdictMatches d c.metadata)

/-- HnsqliteDataStore.delete (hnsqlite_datastore.py lines 120-161):
delete_all short-circuits; a non-empty translated filter is applied, a
filter holding only document_id dispatching to the direct by-doc-id
delete; a non-empty ids list then deletes those document ids; the call
reports success. -/
def hnsqliteDelete (ts : PyStr → Nat) (st : Store) (ids : Option (List PyStr))
    (filter : Option DocumentMetadataFilter) (deleteAll : Option Bool) :
    Store × Bool :=
  if deleteAll = some true then ([], true)
  else
    let hf := getHnsqliteFilter ts filter
    let st1 :=
      if hf ≠ [] then
        if hf.length = 1 ∧ hdictHasKey hf "document_id" then
          match hdictGet hf "document_id" with
          | some (.eq (.s v)) => collectionDeleteDocIds st [v]
          | _ => st -- unreachable: the translation stores document_id as a string equality
        else collectionDeleteFilter st hf
      else st
    let st2 :=
      match ids with
      | none => st1
      | some l => if l.isEmpty then st1 else collectionDeleteDocIds st1 l
    (st2, true)

/-- The stored form of one document chunk as built by
HnsqliteDataStore._upsert (lines 44-53): converted metadata plus the
chunk id stashed under hnsqlite:doc_chunk_id, doc_id set to the dict key. -/
def storedOfChunk (ts : PyStr → Nat) (docId : PyStr) (c : DocumentChunk) :
    StoredChunk :=
  { chunkId := c.id
    docId := docId
    text := c.text
    metadata := hnsqliteMetadata ts c.metadata ++ [("hnsqlite:doc_chunk_id", .s c.id)] }

/-- HnsqliteDataStore._upsert (lines 28-57): walk the document-id dict,
collect the ids, and append every chunk's stored form to the collection. -/
def hnsqliteUpsertInsert (ts : PyStr → Nat)
    (dict : List (PyStr × List DocumentChunk)) (st : Store) :
    Store × List PyStr :=
  (st ++ dict.flatMap (fun e => e.2.map (storedOfChunk ts e.1)), dict.map (fun e => e.1))

/-!
## Ingestion orchestrator (services/chunks.py) and
DataStore.upsert (datastore/datastore.py)
-/

/-- Decimal digits of a natural number, for the f-string chunk ids. -/
def natRepr (i : Nat) : PyStr := (Nat.repr i).data

/-- The tabular mimetypes of services/file.py (excel_mimetypes); note the
source lists the .xlt/.xltm entry twice. -/
def excelMimetypes : List PyStr :=
  ["application/vnd.ms-excel".data,
   "application/vnd.openxmlformats-officedocument.spreadsheetml.sheet".data,
   "application/vnd.ms-excel.sheet.macroEnabled.12".data,
   "application/vnd.ms-excel.sheet.binary.macroEnabled.12".data,
   "application/vnd.ms-excel.template.macroEnabled.12".data,
   "application/vnd.ms-excel.template.macroEnabled.12".data,
   "application/vnd.ms-excel.addin.macroEnabled.12".data]

/-- `doc.mimetype in ['text/csv'] + excel_mimetypes` (False for a missing
mimetype). -/
def isTabularMimetype : Option PyStr → Bool
  | none => false
  | some m => ("text/csv".data :: excelMimetypes).contains m

/-- create_document_chunks (services/chunks.py lines 130-188): empty or
whitespace text produces no chunks; tabular mimetypes go through
get_csv_chunks over the newline-split text with max_tokens=2000; all
other documents dereference doc.metadata.language (lines 155 and 159) —
an AttributeError for a document without metadata — and go through
chunk_text_pysbd with the effective chunk token size and the default
max_tokens=1024 (the language value only selects the external pysbd
segmenter and is absorbed into the segment parameter); each chunk gets id
"{doc.id}_{index}" and the document metadata plus document_id, with
absent metadata collapsing to the bare default on the surviving tabular
path (lines 165-170).  (The token_count stamping onto the Document object
is an observable side effect not needed by the claims.) -/
def create_document_chunks (cfg : ChunkConfig) (tok : Tokenizer)
    (segment : PyStr → List PyStr) (doc : Document)
    (chunkTokenSize : Option Nat) :
    Except Unit (List DocumentChunk × PyStr) :=
  if pyEmptyOrSpace doc.text then .ok ([], doc.id)
  else
    match
      if isTabularMimetype doc.mimetype then
        get_csv_chunks cfg tok (pySplitNL doc.text) 2000
      else
        match doc.metadata with
        | none => .error ()
        | some _ =>
          chunk_text_pysbd cfg tok segment tok.encode doc.text
            (effectiveChunkSize cfg chunkTokenSize) 1024
    with
    | .error e => .error e
    | .ok (textChunks, tokenCounts) =>
      let metadata : DocumentChunkMetadata :=
        { toDocumentMetadata := doc.metadata.getD emptyDocumentMetadata
          document_id := doc.id }
      let docChunks := (textChunks.zip tokenCounts).enum.map (fun e =>
        { id := doc.id ++ '_' :: natRepr e.1
          text := e.2.1
          metadata := metadata
          token_count := some e.2.2 : DocumentChunk })
      .ok (docChunks, doc.id)

/-- Python dict assignment chunks[doc_id] = doc_chunks: overwrite in
place when the key exists, else append. -/
def dictInsert (d : List (PyStr × List DocumentChunk)) (k : PyStr)
    (v : List DocumentChunk) : List (PyStr × List DocumentChunk) :=
  if d.any (fun e => e.1 = k) then
    d.map (fun e => if e.1 = k then (e.1, v) else e)
  else d ++ [(k, v)]

/-- The per-document loop of get_document_chunks (chunks.py lines
212-219): build the id-to-chunks dict and the all_chunks list in document
order; a per-document chunking exception propagates immediately. -/
def gdcLoop (chunkDoc : Document → Except Unit (List DocumentChunk × PyStr)) :
    List Document → List (PyStr × List DocumentChunk) → List DocumentChunk →
    Except Unit (List (PyStr × List DocumentChunk) × List DocumentChunk)
  | [], dict, allChunks => .ok (dict, allChunks)
  | doc :: rest, dict, allChunks =>
    match chunkDoc doc with
    | .error e => .error e
    | .ok (docChunks, docId) =>
      gdcLoop chunkDoc rest (dictInsert dict docId docChunks)
        (allChunks ++ docChunks)

/-- get_document_chunks (chunks.py lines 191-252), parameterized by the
per-document chunking step: returns the empty dict when no chunks at all
were produced.  The batched embedding hydration through the external
get_embeddings service attaches vectors to the same chunk objects in
order and is not needed by the claims. -/
def getDocumentChunksWith
    (chunkDoc : Document → Except Unit (List DocumentChunk × PyStr))
    (docs : List Document) :
    Except Unit (List (PyStr × List DocumentChunk)) :=
  match gdcLoop chunkDoc docs [] [] with
  | .error e => .error e
  | .ok (dict, allChunks) =>
    if allChunks.isEmpty then .ok []
    else .ok dict

inductive UpsertErr
  | noUsable
  | pipelineError
deriving DecidableEq

/-- The delete-before-upsert pass of DataStore.upsert (datastore.py lines
27-39): one delete per document carrying a non-empty id, with the filter
DocumentMetadataFilter(document_id=...) and delete_all=False.  The source
issues the deletes through asyncio.gather; they touch disjoint document
ids, so the model sequences them in document order. -/
def upsertDeletes (ts : PyStr → Nat) (docs : List Document) (st : Store) :
    Store :=
  docs.foldl
    (fun s d =>
      if d.id.isEmpty then s
      else (hnsqliteDelete ts s none (some (filterOfDocId d.id)) (some false)).1)
    st

/-- DataStore.upsert (datastore.py lines 19-43) composed with
HnsqliteDataStore._upsert, parameterized by the per-document chunking
step: delete existing chunks of every named document, chunk the batch,
raise the "No useable content" ValueError when the chunk dict is empty,
otherwise insert everything and return the processed document ids.  The
store state is returned in either case (the deletes have already
happened when the error is raised). -/
def upsertWith (chunkDoc : Document → Except Unit (List DocumentChunk × PyStr))
    (ts : PyStr → Nat) (docs : List Document) (st : Store) :
    Store × Except UpsertErr (List PyStr) :=
  let st1 := upsertDeletes ts docs st
  match getDocumentChunksWith chunkDoc docs with
  | .error _ => (st1, .error .pipelineError)
  | .ok [] => (st1, .error .noUsable)
  | .ok dict =>
    let r := hnsqliteUpsertInsert ts dict st1
    (r.1, .ok r.2)

/-- The full upsert pipeline with the concrete chunkers of
services/chunks.py. -/
def upsertModel (cfg : ChunkConfig) (tok : Tokenizer)
    (segment : PyStr → List PyStr) (ts : PyStr → Nat)
    (chunkTokenSize : Option Nat) (docs : List Document) (st : Store) :
    Store × Except UpsertErr (List PyStr) :=
  upsertWith (fun d => create_document_chunks cfg tok segment d chunkTokenSize)
    ts docs st

/-!
## Derived store notions used by the claims
-/

/-- The chunks currently stored for one document id, judged by the
document_id recorded in the stored metadata. -/
def chunksForDoc (docId : PyStr) (st : Store) : Store :=
  st.filter (fun c => decide (mdictLookup c.metadata "document_id" = some (.s docId)))

/-- Every stored chunk's metadata document_id agrees with its doc_id
column; every state reachable through _upsert satisfies this. -/
def WellFormedStore (st : Store) : Prop :=
  ∀ c ∈ st, mdictLookup c.metadata "document_id" = some (.s c.docId)

/-!
## Spec-side description of the sentence accumulation policy (for the
refinement claim about chunk_text_pysbd)

Modelled from the spec: accumulate segments into a running chunk; close
the running chunk exactly when running_sum + next_tokens/2 > target;
the closed chunk's text joins its segments with single spaces and its
token count is the segment sum; the next chunk is seeded with the last 2
segments of the closed chunk when it had more than 10 segments, else the
last 1; the final accumulated chunk is always emitted.
-/

def sbdSpecChunks (target : Nat) (cur : List (PyStr × Nat)) :
    List (PyStr × Nat) → List (PyStr × Nat)
  | [] => [(joinSpace (cur.map Prod.fst), (cur.map Prod.snd).sum)]
  | (s, t) :: rest =>
    if (cur.map Prod.snd).sum + t / 2 > target then
      let overlap := if cur.length > 10 then 2 else 1
      (joinSpace (cur.map Prod.fst), (cur.map Prod.snd).sum) ::
        sbdSpecChunks target (takeLastN overlap cur ++ [(s, t)]) rest
    else sbdSpecChunks target (cur ++ [(s, t)]) rest

/-!
## Concrete instances used by witnesses and counterexamples
-/

/-- A concrete tokenizer: one token per character.  encode and decode are
exact inverses, and every nonempty string encodes to at least one token. -/
def charTok : Tokenizer :=
  { encode := fun s => s.map Char.toNat
    decode := fun ts => ts.map Char.ofNat }

/-- A small injected configuration (the configuration is deployment
input, spec section 6). -/
def smallCfg : ChunkConfig :=
  { chunk_size := 3, min_chunk_size_chars := 1, min_chunk_length_to_embed := 2
    embeddings_batch_size := 128, max_num_chunks := 5 }

/-- smallCfg with the chunk cap lowered to 1. -/
def capCfg : ChunkConfig :=
  { smallCfg with max_num_chunks := 1 }

/-- A segmenter returning the whole text as a single sentence (what pysbd
does on a short sentence-free text). -/
def segWhole : PyStr → List PyStr := fun s => [s]

/-- A segmenter whose output has four fixed segments, standing for a text
pysbd splits into four sentences. -/
def segFour : PyStr → List PyStr :=
  fun _ => ["aaaa".data, "bbbb".data, "cccc".data, "dddd".data]

/-- A segmenter with two short sentences followed by an oversized one
(with max_tokens 5 under charTok): the cap break must abandon the
generator before the third segment is ever expanded. -/
def segLazy : PyStr → List PyStr :=
  fun _ => ["aaaa".data, "bbbb".data, "abcdefgh".data]

/-- A tokenizer in which the character x costs two tokens and every other
character one (variable-width encodings are the reason the source derives
the character budget from token density). -/
def heavyXTok : Tokenizer :=
  { encode := fun s => s.flatMap (fun c => if c = 'x' then [0, 1] else [2])
    decode := fun _ => [] }

/-- smallCfg with chunk_size 5, used with heavyXTok. -/
def heavyCfg : ChunkConfig :=
  { smallCfg with chunk_size := 5 }

/-- An encoder that satisfies the C9 tokenizer condition (every nonempty
non-whitespace string encodes to at least one token) yet encodes the
whitespace string consisting of two spaces and a newline to no tokens at
all. -/
def weirdEnc : PyStr → List Nat :=
  fun s => if s = "  \n".data then [] else s.map Char.toNat

def weirdTok : Tokenizer :=
  { encode := weirdEnc
    decode := fun ts => ts.map Char.ofNat }

/-- Configuration for the C9 counterexample run. -/
def c9Cfg : ChunkConfig :=
  { chunk_size := 4, min_chunk_size_chars := 1, min_chunk_length_to_embed := 0
    embeddings_batch_size := 128, max_num_chunks := 5 }

/-- The document of the C8 counterexample: two letters of text, metadata
present with every field absent, no mimetype. -/
def docAB : Document :=
  { id := "d".data, text := "ab".data
    metadata := some emptyDocumentMetadata, mimetype := none }

/-!
## Helper lemmas
-/

theorem eqMatches (m : List (String × MetaVal)) (k : String) (v : MetaVal) :
    entryMatches m (k, .eq v) = true ↔ mdictLookup m k = some v := by
  simp [entryMatches]

theorem rangeMatches_gte (m : List (String × MetaVal)) (k : String) (g : Nat) :
    entryMatches m (k, .range (some g) none) = true ↔
      ∃ c, mdictLookup m k = some (.n c) ∧ g ≤ c := by
  cases h : mdictLookup m k with
  | none => simp [entryMatches, h]
  | some v => cases v <;> simp [entryMatches, h, Option.all]

theorem rangeMatches_lte (m : List (String × MetaVal)) (k : String) (l : Nat) :
    entryMatches m (k, .range none (some l)) = true ↔
      ∃ c, mdictLookup m k = some (.n c) ∧ c ≤ l := by
  cases h : mdictLookup m k with
  | none => simp [entryMatches, h]
  | some v => cases v <;> simp [entryMatches, h, Option.all]

theorem rangeMatches_both (m : List (String × MetaVal)) (k : String) (g l : Nat) :
    entryMatches m (k, .range (some g) (some l)) = true ↔
      ((∃ c, mdictLookup m k = some (.n c) ∧ g ≤ c) ∧
       (∃ c, mdictLookup m k = some (.n c) ∧ c ≤ l)) := by
  cases h : mdictLookup m k with
  | none => simp [entryMatches, h]
  | some v => cases v <;> simp [entryMatches, h, Option.all]

/-- Folding an append-step over a list appends the flattened entries. -/
theorem foldl_append_eq (f : β → List α) :
    ∀ (l : List β) (d : List α),
      l.foldl (fun d kv => d ++ f kv) d = d ++ l.flatMap f
  | [], d => by simp
  | kv :: rest, d => by
    simp [foldl_append_eq f rest, List.append_assoc]

theorem mdictLookup_append_right (d1 d2 : List (String × MetaVal)) (k : String)
    (h : ∀ e ∈ d1, e.1 ≠ k) : mdictLookup (d1 ++ d2) k = mdictLookup d2 k := by
  have : d1.find? (fun e => e.1 = k) = none := by
    rw [List.find?_eq_none]
    intro e he
    simp [h e he]
  simp [mdictLookup, List.find?_append, this]

/-!
## Claim theorems
-/

/-- Claim C10: delete with no effective criteria is a no-op — ids absent
or empty, filter absent or with only absent fields, delete_all not True:
no stored chunk is touched and the call returns True. -/
theorem C10_delete_noop (ts : PyStr → Nat) (st : Store) (ids : Option (List PyStr))
    (fil : Option DocumentMetadataFilter) (da : Option Bool)
    (hids : ids = none ∨ ids = some [])
    (hf : fil = none ∨ fil = some emptyFilter)
    (hda : da ≠ some true) :
    hnsqliteDelete ts st ids fil da = (st, true) := by
  have hfe : getHnsqliteFilter ts fil = [] := by
    rcases hf with rfl | rfl <;> rfl
  rcases hids with rfl | rfl <;>
    simp [hnsqliteDelete, hfe, hda]

/-- Witness for C10 at a concrete store, an all-absent filter and
delete_all=False. -/
theorem C10_delete_noop_witness :
    hnsqliteDelete (fun _ => 0) [⟨"c".data, "d".data, "t".data, []⟩] none
      (some emptyFilter) (some false) =
      ([⟨"c".data, "d".data, "t".data, []⟩], true) :=
  C10_delete_noop (fun _ => 0) [⟨"c".data, "d".data, "t".data, []⟩] none
    (some emptyFilter) (some false) (Or.inl rfl) (Or.inr rfl) (by decide)

set_option maxHeartbeats 1000000

/-- Claim C5: the filter translation maps a present start_date to an
inclusive lower bound on created_at and a present end_date to an
inclusive upper bound (both through the timestamp normalizer), maps every
other present field to exact equality, imposes nothing for absent fields,
and translates the all-absent filter (and the absent filter) to the empty
predicate, which matches every chunk. -/
theorem C5_filter_translation (ts : PyStr → Nat) (f : DocumentMetadataFilter)
    (m : List (String × MetaVal)) :
    (hdictMatches (getHnsqliteFilter ts (some f)) m = true ↔
      ((∀ v, f.document_id = some v → mdictLookup m "document_id" = some (.s v)) ∧
       (∀ v, f.source = some v → mdictLookup m "source" = some (.s (sourceStr v))) ∧
       (∀ v, f.source_id = some v → mdictLookup m "source_id" = some (.s v)) ∧
       (∀ v, f.author = some v → mdictLookup m "author" = some (.s v)) ∧
       (∀ v, f.start_date = some v →
          ∃ c, mdictLookup m "created_at" = some (.n c) ∧ ts v ≤ c) ∧
       (∀ v, f.end_date = some v →
          ∃ c, mdictLookup m "created_at" = some (.n c) ∧ c ≤ ts v) ∧
       (∀ v, f.title = some v → mdictLookup m "title" = some (.s v)) ∧
       (∀ v, f.url = some v → mdictLookup m "url" = some (.s v)))) ∧
    getHnsqliteFilter ts (some emptyFilter) = [] ∧
    getHnsqliteFilter ts none = [] ∧
    hdictMatches [] m = true := by
  refine ⟨?_, rfl, rfl, rfl⟩
  obtain ⟨d, s, si, a, sd, ed, t, u⟩ := f
  cases d <;> cases s <;> cases si <;> cases a <;> cases sd <;> cases ed <;> cases t <;> cases u <;>
    simp [getHnsqliteFilter, filterItems, filterStep, hdictSetGte, hdictSetLte,
      hdictHasKey, hdictMatches, eqMatches, rangeMatches_gte, rangeMatches_lte,
      rangeMatches_both, and_assoc]

/-- Claim C3: the spec says an oversized sentence segment is split via
the Token-Window Chunker and its pieces substituted in sequence; the code
instead unpacks each returned chunk string as a (text, tokens) pair and
crashes.  Here a single 8-token segment (cap 3 tokens per segment) whose
fallback chunking yields the pieces abc/def/gh makes chunk_text_pysbd
raise instead of returning those pieces. -/
theorem C3_oversized_segment_crash :
    chunk_text_pysbd smallCfg charTok segWhole charTok.encode
      "abcdefgh".data 200 3 = .error () := by decide

/-- Counterexample to claim C2: with the cap set to 1 and segments whose
second item closes a chunk, chunk_text_pysbd returns two chunks — the
cap-hit break still appends a final empty chunk with token count 0 — not
exactly max_num_chunks chunks; the third segment is oversized (8 tokens
against max_tokens 5) but is never pulled from the abandoned generator,
so the run returns normally. -/
theorem C2_cap_counterexample :
    chunk_text_pysbd capCfg charTok segLazy charTok.encode "x".data 5 5 =
      .ok (["aaaa".data, []], [4, 0]) ∧ capCfg.max_num_chunks = 1 ∧
    ¬ (charTok.encode "abcdefgh".data).length < 5 := by decide

/-- Counterexample to claim C4: under the default configuration
(min_chunk_length_to_embed = 5) the Sentence-Boundary Chunker emits the
two-character chunk "ab" — its cleaned text length 2 is not greater than
the minimum, so the minimum-length filter does not hold on this path. -/
theorem C4_minlength_counterexample :
    chunk_text_pysbd defaultChunkConfig charTok segWhole charTok.encode
      "ab".data 200 1024 = .ok (["ab".data], [2]) ∧
    (pyClean "ab".data).length ≤ defaultChunkConfig.min_chunk_length_to_embed := by
  decide

/-- Counterexample to claim C6: a 10-character record that encodes to 16
tokens (the character x costs two tokens), with chunk_size 5 and
max_tokens 6: max_chars = int(6 / (16/10)) = 3 in binary64 arithmetic
and the record splits into 4 pieces, while
ceil(N / max_tokens) = ceil(16/6) = 3. -/
theorem C6_tabular_counterexample :
    get_csv_chunks heavyCfg heavyXTok ["xxxxxxaaaa".data] 6 =
      .ok (["xxx".data, "xxx".data, "aaa".data, "a".data], [6, 6, 3, 1]) ∧
    (heavyXTok.encode "xxxxxxaaaa".data).length = 16 ∧
    csvMaxChars 16 10 6 = 3 ∧
    ceilNat 16 6 = 3 := by decide

/-- Counterexample to claim C8: a document whose sole chunk "ab" fails
the minimum-length filter (length 2 with minimum 5) is nevertheless
upserted successfully — the store receives the chunk and the call
returns the document id instead of failing with "no usable content". -/
theorem C8_no_usable_counterexample :
    (upsertModel defaultChunkConfig charTok segWhole (fun _ => 0) none [docAB] []).2 =
      .ok ["d".data] ∧
    (upsertModel defaultChunkConfig charTok segWhole (fun _ => 0) none [docAB] []).1 =
      [{ chunkId := "d_0".data, docId := "d".data, text := "ab".data,
         metadata := [("document_id", .s "d".data), ("hnsqlite:doc_chunk_id", .s "d_0".data)] }] ∧
    (pyClean "ab".data).length ≤ defaultChunkConfig.min_chunk_length_to_embed := by
  decide

/-- Counterexample to claim C9: under a tokenizer that encodes every
nonempty non-whitespace string to at least one token (weirdEnc, see
weirdEnc_claim_hypothesis) yet encodes the whitespace string consisting
of two spaces and a newline to nothing, the very first loop iteration of
get_text_chunks on the input with tokens for space, space, newline, a, b
truncates the window at the newline, re-encodes the truncated whitespace
text to zero tokens, and so removes no token at all while the run still
terminates through the chunk counter. -/
theorem C9_iteration_counterexample :
    (gtcIter c9Cfg weirdTok 4
      { tokens := weirdEnc "  \nab".data, chunks := [], numChunks := 0 }).tokens =
      weirdEnc "  \nab".data ∧
    weirdEnc "  \nab".data ≠ [] ∧
    (gtcIter c9Cfg weirdTok 4
      { tokens := weirdEnc "  \nab".data, chunks := [], numChunks := 0 }).numChunks = 1 ∧
    get_text_chunks c9Cfg weirdTok "  \nab".data none = some ["ab".data] := by decide

/-- The tokenizer of the C9 counterexample satisfies the claim's
hypothesis: encoding any nonempty, non-whitespace string yields at least
one token. -/
theorem weirdEnc_claim_hypothesis (s : PyStr) (hne : s ≠ [])
    (hns : pyIsSpace s = false) : weirdEnc s ≠ [] := by
  unfold weirdEnc
  by_cases h : s = "  \n".data
  · subst h
    exact absurd hns (by decide)
  · simpa [h] using hne

/-- Every executed iteration of the get_text_chunks loop decreases
tokens-remaining plus chunk-budget-remaining, provided the chunk size is
positive: the whitespace-skip branch removes at least one token and the
emit branch increments the bounded chunk counter. -/
theorem gtcIter_measure (cfg : ChunkConfig) (tok : Tokenizer) (cs : Nat)
    (st : GtcState) (hcs : 0 < cs) (hne : st.tokens ≠ [])
    (hnum : st.numChunks < cfg.max_num_chunks) :
    (gtcIter cfg tok cs st).tokens.length
        + (cfg.max_num_chunks - (gtcIter cfg tok cs st).numChunks) <
      st.tokens.length + (cfg.max_num_chunks - st.numChunks) := by
  have hlen : 0 < st.tokens.length := List.length_pos.mpr hne
  cases hps : pyEmptyOrSpace (tok.decode (st.tokens.take cs)) with
  | true => simp [gtcIter, hps]; omega
  | false => simp [gtcIter, hps]; omega

/-- Fuel sufficiency for the get_text_chunks loop: with positive chunk
size, fuel beyond the measure always reaches the loop exit. -/
theorem gtcLoop_isSome (cfg : ChunkConfig) (tok : Tokenizer) (cs : Nat)
    (hcs : 0 < cs) :
    ∀ (fuel : Nat) (st : GtcState),
      st.tokens.length + (cfg.max_num_chunks - st.numChunks) < fuel →
      (gtcLoop cfg tok cs fuel st).isSome = true
  | 0, st => by omega
  | fuel + 1, st => by
    intro hfuel
    unfold gtcLoop
    by_cases hstop : st.tokens.isEmpty = true ∨ ¬ st.numChunks < cfg.max_num_chunks
    · rcases hstop with h | h <;> simp [h]
    · push_neg at hstop
      obtain ⟨h1, h2⟩ := hstop
      have hne : st.tokens ≠ [] := by
        simpa [List.isEmpty_iff] using h1
      have := gtcIter_measure cfg tok cs st hcs hne h2
      simp only [h1, Bool.false_eq_true, false_or, h2, not_true_eq_false,
        if_false, decide_True, not_false_eq_true]
      have hrec := gtcLoop_isSome cfg tok cs hcs fuel (gtcIter cfg tok cs st)
        (by omega)
      simpa [h1, h2] using hrec

/-- Claim C9 (amended): get_text_chunks terminates whenever the effective
chunk size is positive — the loop needs at most
len(tokens) + max_num_chunks iterations, each one removing a token or
consuming chunk budget. -/
theorem C9_termination_amended (cfg : ChunkConfig) (tok : Tokenizer)
    (text : PyStr) (cts : Option Nat)
    (hcs : 0 < effectiveChunkSize cfg cts) :
    (get_text_chunks cfg tok text cts).isSome = true := by
  unfold get_text_chunks
  cases hws : pyEmptyOrSpace text with
  | true => simp [hws]
  | false =>
    have hloop := gtcLoop_isSome cfg tok (effectiveChunkSize cfg cts) hcs
      ((tok.encode text).length + cfg.max_num_chunks + 1)
      { tokens := tok.encode text, chunks := [], numChunks := 0 }
      (by simp)
    cases hres : gtcLoop cfg tok (effectiveChunkSize cfg cts)
        ((tok.encode text).length + cfg.max_num_chunks + 1)
        { tokens := tok.encode text, chunks := [], numChunks := 0 } with
    | none => rw [hres] at hloop; simp at hloop
    | some st =>
      simp only [hws, Bool.false_eq_true, if_false, hres]
      split_ifs <;> simp

/-- Witness for the amended C9 theorem: the default-style small
configuration has a positive chunk size, so the chunker yields a result
on a concrete text. -/
theorem C9_termination_amended_witness :
    (get_text_chunks smallCfg charTok "abc.".data none).isSome = true :=
  C9_termination_amended smallCfg charTok "abc.".data none (by decide)

/-- The chunk_text_pysbd loop never accumulates more than max_num_chunks
closed chunks, and when it stops exactly at the cap the break has cleared
the running chunk. -/
theorem pysbdSegs_cap (cfg : ChunkConfig) (tok : Tokenizer)
    (M target maxT : Nat) (tokf : PyStr → List Nat) :
    ∀ (segs : List PyStr) (st r : PState),
      pysbdSegs cfg tok M target maxT tokf segs st = .ok r →
      st.resC.length < M →
      r.resC.length ≤ M ∧ (r.resC.length = M → r.curL = [] ∧ r.curT = [])
  | [], st, r => by
    intro hr h
    simp only [pysbdSegs, Except.ok.injEq] at hr
    subst hr
    exact ⟨Nat.le_of_lt h, fun he => absurd he (by omega)⟩
  | s :: rest, st, r => by
    intro hr h
    unfold pysbdSegs at hr
    by_cases hsm : (tokf s).length < maxT
    · rw [if_pos hsm] at hr
      by_cases hc : st.sumT + (tokf s).length / 2 > target
      · rw [if_pos hc] at hr
        have hclose : (pysbdClose st).resC.length = st.resC.length + 1 := by
          simp [pysbdClose]
        by_cases hbreak : M ≤ (pysbdClose st).resC.length
        · rw [if_pos hbreak, Except.ok.injEq] at hr
          subst hr
          refine ⟨?_, fun _ => ⟨by trivial, by trivial⟩⟩
          show (pysbdClose st).resC.length ≤ M
          omega
        · rw [if_neg hbreak] at hr
          have hpush : (pysbdPush (pysbdClose st) s (tokf s).length).resC.length =
              (pysbdClose st).resC.length := by
            simp [pysbdPush]
          exact pysbdSegs_cap cfg tok M target maxT tokf rest _ r hr (by omega)
      · rw [if_neg hc] at hr
        have hpush : (pysbdPush st s (tokf s).length).resC.length =
            st.resC.length := by
          simp [pysbdPush]
        exact pysbdSegs_cap cfg tok M target maxT tokf rest _ r hr (by omega)
    · rw [if_neg hsm] at hr
      cases hg : get_text_chunks cfg tok s (some maxT) with
      | none => rw [hg] at hr; exact absurd hr (by simp)
      | some l =>
        rw [hg] at hr
        cases l with
        | nil =>
          dsimp only at hr
          exact pysbdSegs_cap cfg tok M target maxT tokf rest st r hr h
        | cons a t => exact absurd hr (by simp)

/-- One get_text_chunks iteration either leaves the chunk list and the
counter alone (whitespace skip) or appends at most one chunk while
incrementing the counter. -/
theorem gtcIter_counts (cfg : ChunkConfig) (tok : Tokenizer) (cs : Nat)
    (st : GtcState) :
    ((gtcIter cfg tok cs st).chunks.length = st.chunks.length ∧
     (gtcIter cfg tok cs st).numChunks = st.numChunks) ∨
    ((gtcIter cfg tok cs st).chunks.length ≤ st.chunks.length + 1 ∧
     (gtcIter cfg tok cs st).numChunks = st.numChunks + 1) := by
  cases hps : pyEmptyOrSpace (tok.decode (st.tokens.take cs)) with
  | true => left; simp [gtcIter, hps]
  | false =>
    right
    constructor
    · simp only [gtcIter, hps]
      split_ifs <;> simp
    · simp [gtcIter, hps]

/-- The get_text_chunks loop maintains chunk-count at most the counter
and the counter at most the cap. -/
theorem gtcLoop_chunks_le (cfg : ChunkConfig) (tok : Tokenizer) (cs : Nat) :
    ∀ (fuel : Nat) (st r : GtcState), gtcLoop cfg tok cs fuel st = some r →
      st.chunks.length ≤ st.numChunks → st.numChunks ≤ cfg.max_num_chunks →
      r.chunks.length ≤ r.numChunks ∧ r.numChunks ≤ cfg.max_num_chunks
  | 0, st, r => by
    intro hr h1 h2
    unfold gtcLoop at hr
    by_cases hstop : st.tokens.isEmpty = true ∨ ¬ st.numChunks < cfg.max_num_chunks
    · rcases hstop with h | h <;> simp [h] at hr <;> subst hr <;> exact ⟨h1, h2⟩
    · push_neg at hstop
      simp [hstop.1, hstop.2] at hr
  | fuel + 1, st, r => by
    intro hr h1 h2
    unfold gtcLoop at hr
    by_cases hstop : st.tokens.isEmpty = true ∨ ¬ st.numChunks < cfg.max_num_chunks
    · rcases hstop with h | h <;> simp [h] at hr <;> subst hr <;> exact ⟨h1, h2⟩
    · push_neg at hstop
      obtain ⟨hne, hlt⟩ := hstop
      simp only [hne, Bool.false_eq_true, false_or, hlt, not_true_eq_false,
        if_false] at hr
      refine gtcLoop_chunks_le cfg tok cs fuel _ r hr ?_ ?_ <;>
        rcases gtcIter_counts cfg tok cs st with ⟨ha, hb⟩ | ⟨ha, hb⟩ <;> omega

set_option maxHeartbeats 1000000

/-- Claim C2 (amended): with a positive cap, every normally returning
chunk_text_pysbd run — including cap-hit runs whose break abandons the
lazily consumed segment stream — returns at most max_num_chunks + 1
chunks, and a run that returns exactly max_num_chunks + 1 chunks hit the
cap: its discarded partial chunk shows up as a final empty chunk with
token count 0; get_text_chunks emits at most max_num_chunks chunks from
its loop plus at most one leftover chunk. -/
theorem C2_cap_amended (cfg : ChunkConfig) (tok : Tokenizer)
    (segment : PyStr → List PyStr) (tokf : PyStr → List Nat) (text : PyStr)
    (target maxTokens : Nat) (hmax : 0 < cfg.max_num_chunks) :
    (∀ cs ts', chunk_text_pysbd cfg tok segment tokf text target maxTokens =
        .ok (cs, ts') →
      cs.length ≤ cfg.max_num_chunks + 1 ∧
      (cs.length = cfg.max_num_chunks + 1 →
        cs.getLast? = some [] ∧ ts'.getLast? = some 0)) ∧
    (∀ text2 cts r, get_text_chunks cfg tok text2 cts = some r →
      r.length ≤ cfg.max_num_chunks + 1) := by
  constructor
  · intro cs ts' hok
    unfold chunk_text_pysbd at hok
    cases hp : pysbdSegs cfg tok cfg.max_num_chunks target maxTokens tokf
        (segment text)
        { resC := [], resT := [], curL := [], curT := [], sumT := 0 } with
    | error e => rw [hp] at hok; exact absurd hok (by simp)
    | ok stf =>
      rw [hp] at hok
      simp only [Except.ok.injEq, Prod.mk.injEq] at hok
      obtain ⟨h1, h2⟩ := hok
      obtain ⟨hle, hcap⟩ := pysbdSegs_cap cfg tok cfg.max_num_chunks target
        maxTokens tokf (segment text) _ stf hp (by simpa using hmax)
      subst h1 h2
      constructor
      · simp; omega
      · intro hlen
        have hM : stf.resC.length = cfg.max_num_chunks := by
          simp at hlen; omega
        obtain ⟨hcl, hct⟩ := hcap hM
        simp [hcl, hct, joinSpace, List.intercalate]
  · intro text2 cts r hr
    unfold get_text_chunks at hr
    by_cases hws : pyEmptyOrSpace text2 = true
    · rw [if_pos hws, Option.some.injEq] at hr
      subst hr
      simp
    · rw [if_neg hws] at hr
      cases hres : gtcLoop cfg tok (effectiveChunkSize cfg cts)
          ((tok.encode text2).length + cfg.max_num_chunks + 1)
          { tokens := tok.encode text2, chunks := [], numChunks := 0 } with
      | none => rw [hres] at hr; simp at hr
      | some st =>
        rw [hres] at hr
        dsimp only at hr
        obtain ⟨hc1, hc2⟩ := gtcLoop_chunks_le cfg tok (effectiveChunkSize cfg cts)
          _ _ _ hres (by simp) (by simp)
        by_cases hre : st.tokens.isEmpty = true
        · simp [hre] at hr; subst hr; omega
        · rw [if_neg hre] at hr
          split_ifs at hr with hlen
          · rw [Option.some.injEq] at hr
            subst hr
            simp only [List.length_append, List.length_singleton]
            omega
          · rw [Option.some.injEq] at hr
            subst hr
            omega

/-- Witness for the amended C2 theorem: the cap-1 run over the segment
list whose third segment is oversized returns normally (the break
abandons the generator before expanding it) with two chunks, within the
cap + 1 bound. -/
theorem C2_cap_amended_witness :
    (["aaaa".data, []] : List PyStr).length ≤ capCfg.max_num_chunks + 1 :=
  ((C2_cap_amended capCfg charTok segLazy charTok.encode "x".data 5 5
    (by decide)).1 ["aaaa".data, []] [4, 0] (by decide)).1

/-- dropWhile is the identity when the head already fails the predicate. -/
theorem dropWhile_of_head_not (p : Char → Bool) (l : List Char)
    (h : ∀ x, l.head? = some x → p x = false) : List.dropWhile p l = l := by
  cases l with
  | nil => rfl
  | cons a rest =>
    rw [List.dropWhile_cons, if_neg]
    simp [h a rfl]

/-- Python strip is idempotent. -/
theorem pyStrip_idem (s : PyStr) : pyStrip (pyStrip s) = pyStrip s := by
  have hrepr : ∀ l : PyStr,
      pyStrip l = List.rdropWhile pyIsSpaceChar (List.dropWhile pyIsSpaceChar l) := by
    intro l
    simp [pyStrip, List.rdropWhile]
  rw [hrepr, hrepr s]
  have hdrop : List.dropWhile pyIsSpaceChar
      (List.rdropWhile pyIsSpaceChar (List.dropWhile pyIsSpaceChar s)) =
      List.rdropWhile pyIsSpaceChar (List.dropWhile pyIsSpaceChar s) := by
    apply dropWhile_of_head_not
    intro x hx
    obtain ⟨t, ht⟩ := List.rdropWhile_prefix pyIsSpaceChar
      (List.dropWhile pyIsSpaceChar s)
    have hy_ne : List.rdropWhile pyIsSpaceChar
        (List.dropWhile pyIsSpaceChar s) ≠ [] := by
      intro h0
      rw [h0] at hx
      simp at hx
    have hu : (List.dropWhile pyIsSpaceChar s).head? = some x := by
      rw [← ht, List.head?_append_of_ne_nil _ hy_ne, hx]
    have hmatch := List.head?_dropWhile_not pyIsSpaceChar s
    rw [hu] at hmatch
    exact hmatch
  rw [hdrop, List.rdropWhile_idempotent]

/-- Replacing newlines in a newline-free string changes nothing. -/
theorem pyReplaceNL_eq_self (x : PyStr) (h : ∀ c ∈ x, c ≠ '\n') :
    pyReplaceNL x = x := by
  unfold pyReplaceNL
  induction x with
  | nil => rfl
  | cons c rest ih =>
    simp only [List.map_cons]
    rw [if_neg (h c (by simp)), ih (fun c hc => h c (by simp [hc]))]

/-- The replacement output never contains a newline. -/
theorem pyReplaceNL_no_newline (s : PyStr) : ∀ c ∈ pyReplaceNL s, c ≠ '\n' := by
  intro c hc
  unfold pyReplaceNL at hc
  obtain ⟨a, _, ha⟩ := List.mem_map.mp hc
  by_cases h : a = '\n'
  · rw [← ha, if_pos h]; decide
  · rw [← ha, if_neg h]; exact h

/-- Stripping only removes characters. -/
theorem pyStrip_subset (s : PyStr) : ∀ c ∈ pyStrip s, c ∈ s := by
  intro c hc
  unfold pyStrip at hc
  rw [List.mem_reverse] at hc
  have h1 := (List.dropWhile_suffix pyIsSpaceChar).mem hc
  rw [List.mem_reverse] at h1
  exact (List.dropWhile_suffix pyIsSpaceChar).mem h1

/-- The chunk-cleaning step of the source is idempotent: emitted chunks
are already in cleaned form. -/
theorem pyClean_idem (s : PyStr) : pyClean (pyClean s) = pyClean s := by
  unfold pyClean
  rw [pyReplaceNL_eq_self (pyStrip (pyReplaceNL s))
    (fun c hc => pyReplaceNL_no_newline s c (pyStrip_subset _ c hc))]
  exact pyStrip_idem _

/-- One get_text_chunks iteration only ever appends a cleaned chunk whose
length beat the minimum. -/
theorem gtcIter_minlength (cfg : ChunkConfig) (tok : Tokenizer) (cs : Nat)
    (st : GtcState)
    (h : ∀ c ∈ st.chunks,
      cfg.min_chunk_length_to_embed < c.length ∧ pyClean c = c) :
    ∀ c ∈ (gtcIter cfg tok cs st).chunks,
      cfg.min_chunk_length_to_embed < c.length ∧ pyClean c = c := by
  intro c hc
  cases hps : pyEmptyOrSpace (tok.decode (st.tokens.take cs)) with
  | true =>
    refine h c ?_
    simpa [gtcIter, hps] using hc
  | false =>
    simp only [gtcIter, hps] at hc
    split_ifs at hc
    all_goals try exact h c hc
    all_goals
      rcases List.mem_append.mp hc with hmem | hmem
    all_goals try exact h c hmem
    all_goals
      rw [List.mem_singleton] at hmem
      subst hmem
      exact ⟨by omega, pyClean_idem _⟩

/-- The get_text_chunks loop preserves the cleaned minimum-length
property of its chunk list. -/
theorem gtcLoop_minlength (cfg : ChunkConfig) (tok : Tokenizer) (cs : Nat) :
    ∀ (fuel : Nat) (st r : GtcState), gtcLoop cfg tok cs fuel st = some r →
      (∀ c ∈ st.chunks,
        cfg.min_chunk_length_to_embed < c.length ∧ pyClean c = c) →
      ∀ c ∈ r.chunks,
        cfg.min_chunk_length_to_embed < c.length ∧ pyClean c = c
  | 0, st, r => by
    intro hr h
    unfold gtcLoop at hr
    by_cases hstop : st.tokens.isEmpty = true ∨ ¬ st.numChunks < cfg.max_num_chunks
    · rcases hstop with hx | hx <;> simp [hx] at hr <;> subst hr <;> exact h
    · push_neg at hstop
      simp [hstop.1, hstop.2] at hr
  | fuel + 1, st, r => by
    intro hr h
    unfold gtcLoop at hr
    by_cases hstop : st.tokens.isEmpty = true ∨ ¬ st.numChunks < cfg.max_num_chunks
    · rcases hstop with hx | hx <;> simp [hx] at hr <;> subst hr <;> exact h
    · push_neg at hstop
      simp only [hstop.1, Bool.false_eq_true, false_or, hstop.2,
        not_true_eq_false, if_false] at hr
      exact gtcLoop_minlength cfg tok cs fuel _ r hr
        (gtcIter_minlength cfg tok cs st h)

/-- Claim C4 (amended): every chunk emitted by the Token-Window Chunker
is already in cleaned form and has length strictly greater than
min_chunk_length_to_embed (the Sentence-Boundary and Tabular paths carry
no such filter — see the counterexample). -/
theorem C4_minlength_amended (cfg : ChunkConfig) (tok : Tokenizer)
    (text : PyStr) (cts : Option Nat) (r : List PyStr)
    (h : get_text_chunks cfg tok text cts = some r) :
    ∀ c ∈ r, cfg.min_chunk_length_to_embed < c.length ∧ pyClean c = c := by
  unfold get_text_chunks at h
  by_cases hws : pyEmptyOrSpace text = true
  · rw [if_pos hws, Option.some.injEq] at h
    subst h
    simp
  · rw [if_neg hws] at h
    cases hres : gtcLoop cfg tok (effectiveChunkSize cfg cts)
        ((tok.encode text).length + cfg.max_num_chunks + 1)
        { tokens := tok.encode text, chunks := [], numChunks := 0 } with
    | none => rw [hres] at h; simp at h
    | some st =>
      rw [hres] at h
      dsimp only at h
      have hst := gtcLoop_minlength cfg tok (effectiveChunkSize cfg cts)
        _ _ _ hres (by simp)
      by_cases hre : st.tokens.isEmpty = true
      · rw [if_pos hre, Option.some.injEq] at h
        subst h
        exact hst
      · rw [if_neg hre] at h
        split_ifs at h with hlen
        · rw [Option.some.injEq] at h
          subst h
          intro c hc
          rcases List.mem_append.mp hc with hc | hc
          · exact hst c hc
          · rw [List.mem_singleton] at hc
            subst hc
            exact ⟨hlen, pyClean_idem _⟩
        · rw [Option.some.injEq] at h
          subst h
          exact hst

/-- Witness for the amended C4 theorem on a concrete run: the emitted
chunk "abc" is cleaned and longer than the minimum. -/
theorem C4_minlength_amended_witness :
    smallCfg.min_chunk_length_to_embed < "abc".data.length ∧
      pyClean "abc".data = "abc".data :=
  C4_minlength_amended smallCfg charTok "abcdefgh".data (some 3)
    ["abc".data, "def".data] (by decide) "abc".data (by decide)

theorem ceilNat_pred (L n : Nat) (hL : 1 ≤ L) (hn : 0 < n) :
    ceilNat L n = (L - 1) / n + 1 := by
  unfold ceilNat
  have h : L + n - 1 = (L - 1) + n := by omega
  rw [h, Nat.add_div_right _ hn]

theorem ceilNat_zero (n : Nat) : ceilNat 0 n = 0 := by
  unfold ceilNat
  rcases Nat.eq_zero_or_pos n with h | h
  · simp [h]
  · exact Nat.div_eq_of_lt (by omega)

/-- The number of pieces the character split produces is the ceiling of
the character count over the character budget. -/
theorem splitEveryAux_length {α : Type} (n : Nat) (hn : 0 < n) :
    ∀ (fuel : Nat) (l : List α), l.length ≤ fuel →
      (splitEveryAux n fuel l).length = ceilNat l.length n
  | fuel, [] => by
    intro _
    cases fuel <;> simp [splitEveryAux, ceilNat_zero]
  | 0, a :: l => by
    intro h
    simp at h
  | fuel + 1, a :: l => by
    intro h
    simp only [List.length_cons] at h
    simp only [splitEveryAux, List.length_cons]
    rw [splitEveryAux_length n hn fuel ((a :: l).drop n)
      (by simp only [List.length_drop, List.length_cons]; omega)]
    simp only [List.length_drop, List.length_cons]
    rw [ceilNat_pred (l.length + 1) n (by omega) hn]
    by_cases hcase : l.length + 1 ≤ n
    · have h0 : l.length + 1 - n = 0 := by omega
      rw [h0, ceilNat_zero]
      have hdv : (l.length + 1 - 1) / n = 0 := Nat.div_eq_of_lt (by omega)
      omega
    · rw [ceilNat_pred (l.length + 1 - n) n (by omega) hn]
      have hrw : l.length + 1 - 1 = (l.length + 1 - n - 1) + n := by omega
      rw [hrw, Nat.add_div_right _ hn]

/-- Every piece of the character split fits the character budget. -/
theorem splitEveryAux_piece_le {α : Type} (n : Nat) :
    ∀ (fuel : Nat) (l : List α), ∀ p ∈ splitEveryAux n fuel l, p.length ≤ n
  | fuel, [] => by cases fuel <;> simp [splitEveryAux]
  | 0, a :: l => by simp [splitEveryAux]
  | fuel + 1, a :: l => by
    intro p hp
    simp only [splitEveryAux] at hp
    rcases List.mem_cons.mp hp with hp | hp
    · subst hp
      simp
    · exact splitEveryAux_piece_le n fuel ((a :: l).drop n) p hp

theorem splitEvery_length {α : Type} (n : Nat) (hn : 0 < n) (l : List α) :
    (splitEvery n l).length = ceilNat l.length n := by
  unfold splitEvery
  rw [if_neg (by omega)]
  exact splitEveryAux_length n hn l.length l (le_refl _)

theorem splitEvery_piece_le {α : Type} (n : Nat) (l : List α) :
    ∀ p ∈ splitEvery n l, p.length ≤ n := by
  unfold splitEvery
  split_ifs
  · simp
  · exact splitEveryAux_piece_le n l.length l

theorem splitEvery_ne_nil {α : Type} (n : Nat) (hn : 0 < n) (l : List α)
    (hl : l ≠ []) : splitEvery n l ≠ [] := by
  unfold splitEvery
  rw [if_neg (by omega)]
  cases l with
  | nil => exact absurd rfl hl
  | cons a t => simp [splitEveryAux]

set_option maxHeartbeats 1000000

/-- Claim C6 (amended): an oversized record (token count above
chunk_size) is split into consecutive substrings of at most
max_chars = int(max_tokens / (N / C)) characters — the two divisions
computed in binary64 arithmetic as CPython evaluates them (csvMaxChars),
approximately floor(max_tokens * C / N) — each within that budget,
producing exactly ceil(C / max_chars) pieces (not ceil(N / max_tokens),
see the counterexample); a record within the token budget passes through
unchanged as one chunk with its token count. -/
theorem C6_tabular_amended (cfg : ChunkConfig) (tok : Tokenizer)
    (maxTokens : Nat) :
    (∀ r : PyStr, cfg.chunk_size < (tok.encode r).length → r ≠ [] →
      0 < csvMaxChars (tok.encode r).length r.length maxTokens →
      get_csv_chunks cfg tok [r] maxTokens =
        .ok (splitEvery (csvMaxChars (tok.encode r).length r.length maxTokens) r,
          (splitEvery (csvMaxChars (tok.encode r).length r.length maxTokens) r).map
            (fun c => (tok.encode c).length)) ∧
      (splitEvery (csvMaxChars (tok.encode r).length r.length maxTokens) r).length =
        ceilNat r.length (csvMaxChars (tok.encode r).length r.length maxTokens) ∧
      ∀ p ∈ splitEvery (csvMaxChars (tok.encode r).length r.length maxTokens) r,
        p.length ≤ csvMaxChars (tok.encode r).length r.length maxTokens) ∧
    (∀ r : PyStr, (tok.encode r).length ≤ cfg.chunk_size →
      get_csv_chunks cfg tok [r] maxTokens =
        .ok ([r], [(tok.encode r).length])) := by
  constructor
  · intro r htc hne hmc
    refine ⟨?_, splitEvery_length _ hmc r, splitEvery_piece_le _ r⟩
    have hlen0 : ¬ r.length = 0 := by
      simpa [List.length_eq_zero] using hne
    have hmc0 : ¬ csvMaxChars (tok.encode r).length r.length maxTokens = 0 := by
      omega
    simp [get_csv_chunks, htc, hlen0, hmc0]
  · intro r hle
    have hstop : ¬ cfg.chunk_size < (tok.encode r).length := by omega
    simp [get_csv_chunks, hstop]

/-- Witness for the amended C6 theorem at the heavy-x record. -/
theorem C6_tabular_amended_witness :
    get_csv_chunks heavyCfg heavyXTok ["xxxxxxaaaa".data] 6 =
      .ok (splitEvery (csvMaxChars (heavyXTok.encode "xxxxxxaaaa".data).length
            "xxxxxxaaaa".data.length 6) "xxxxxxaaaa".data,
        (splitEvery (csvMaxChars (heavyXTok.encode "xxxxxxaaaa".data).length
            "xxxxxxaaaa".data.length 6) "xxxxxxaaaa".data).map
          (fun c => (heavyXTok.encode c).length)) :=
  ((C6_tabular_amended heavyCfg heavyXTok 6).1 "xxxxxxaaaa".data
    (by decide) (by decide) (by decide)).1

/-- Taking a trailing slice commutes with mapping. -/
theorem takeLastN_map {α β : Type} (f : α → β) (k : Nat) (l : List α) :
    takeLastN k (l.map f) = (takeLastN k l).map f := by
  simp [takeLastN, List.map_drop]

/-- When every segment is below the per-segment token cap, the lazy
consumer agrees with the explicit pair loop over the yielded pairs. -/
theorem pysbdSegs_small (cfg : ChunkConfig) (tok : Tokenizer)
    (M target maxT : Nat) (tokf : PyStr → List Nat) :
    ∀ (segs : List PyStr) (st : PState),
      (∀ s ∈ segs, (tokf s).length < maxT) →
      pysbdSegs cfg tok M target maxT tokf segs st =
        .ok (pysbdLoop M target st (segs.map (fun s => (s, (tokf s).length))))
  | [], st => by intro _; rfl
  | s :: rest, st => by
    intro h
    have hs : (tokf s).length < maxT := h s (by simp)
    have hrest := fun st2 => pysbdSegs_small cfg tok M target maxT tokf rest st2
      (fun x hx => h x (List.mem_cons_of_mem _ hx))
    simp only [List.map_cons]
    unfold pysbdSegs pysbdLoop
    rw [if_pos hs]
    by_cases hc : st.sumT + (tokf s).length / 2 > target
    · rw [if_pos hc, if_pos hc]
      by_cases hb : M ≤ (pysbdClose st).resC.length
      · rw [if_pos hb, if_pos hb]
      · rw [if_neg hb, if_neg hb]
        exact hrest _
    · rw [if_neg hc, if_neg hc]
      exact hrest _

/-- The chunk_text_pysbd accumulation loop refines the spec-side
accumulation: under the cap, the closed chunks plus the trailing open
chunk are exactly the spec-described chunk sequence. -/
theorem pysbdLoop_spec (M target : Nat) :
    ∀ (pairs : List (PyStr × Nat)) (st : PState) (cur : List (PyStr × Nat)),
      st.curL = cur.map Prod.fst →
      st.curT = cur.map Prod.snd →
      st.sumT = (cur.map Prod.snd).sum →
      st.resC.length + pairs.length < M →
      ((pysbdLoop M target st pairs).resC ++
          [joinSpace (pysbdLoop M target st pairs).curL] =
        st.resC ++ (sbdSpecChunks target cur pairs).map Prod.fst) ∧
      ((pysbdLoop M target st pairs).resT ++
          [(pysbdLoop M target st pairs).curT.sum] =
        st.resT ++ (sbdSpecChunks target cur pairs).map Prod.snd)
  | [], st, cur => by
    intro hL hT hS hM
    simp only [pysbdLoop, sbdSpecChunks, List.map_cons, List.map_nil]
    constructor
    · simp [hL]
    · simp [hT]
  | (s, t) :: rest, st, cur => by
    intro hL hT hS hM
    unfold pysbdLoop sbdSpecChunks
    by_cases hc : st.sumT + t / 2 > target
    · have hc' : (cur.map Prod.snd).sum + t / 2 > target := by rw [← hS]; exact hc
      rw [if_pos hc, if_pos hc']
      have hclose : (pysbdClose st).resC.length = st.resC.length + 1 := by
        simp [pysbdClose]
      have hbreak : ¬ M ≤ (pysbdClose st).resC.length := by
        simp only [List.length_cons] at hM
        omega
      rw [if_neg hbreak]
      have hcloseL : (pysbdClose st).curL =
          (takeLastN (if cur.length > 10 then 2 else 1) cur).map Prod.fst := by
        simp only [pysbdClose, hL, List.length_map, takeLastN_map]
      have hcloseT : (pysbdClose st).curT =
          (takeLastN (if cur.length > 10 then 2 else 1) cur).map Prod.snd := by
        simp only [pysbdClose, hL, hT, List.length_map, takeLastN_map]
      obtain ⟨ih1, ih2⟩ := pysbdLoop_spec M target rest
        (pysbdPush (pysbdClose st) s t)
        (takeLastN (if cur.length > 10 then 2 else 1) cur ++ [(s, t)])
        (by simp [pysbdPush, hcloseL])
        (by simp [pysbdPush, hcloseT])
        (by simp [pysbdPush, pysbdClose, hL, hT, List.length_map, takeLastN_map])
        (by simp only [pysbdPush, pysbdClose, List.length_append,
              List.length_cons] at hM ⊢
            simp at hM ⊢
            omega)
      constructor
      · rw [ih1]
        simp only [pysbdPush, pysbdClose, List.map_cons]
        simp [hL, List.append_assoc]
      · rw [ih2]
        simp only [pysbdPush, pysbdClose, List.map_cons]
        simp [hT, List.append_assoc]
    · have hc' : ¬ (cur.map Prod.snd).sum + t / 2 > target := by rw [← hS]; exact hc
      rw [if_neg hc, if_neg hc']
      obtain ⟨ih1, ih2⟩ := pysbdLoop_spec M target rest
        (pysbdPush st s t) (cur ++ [(s, t)])
        (by simp [pysbdPush, hL])
        (by simp [pysbdPush, hT])
        (by simp [pysbdPush, hS])
        (by simp only [List.length_cons] at hM
            simp only [pysbdPush]
            omega)
      exact ⟨ih1, ih2⟩

/-- Claim C7: chunk_text_pysbd implements the claimed accumulation
policy — the running chunk closes exactly when
running_sum + next_tokens/2 > target_tokens, a closed chunk joins its
segments with single spaces, and the next chunk is seeded with the last
2 segments of the closed chunk when it had more than 10 segments,
otherwise the last 1 (sbdSpecChunks states the policy in the claim's
words; the hypotheses keep the run away from the oversized-segment
fallback and the cap). -/
theorem C7_accumulation (cfg : ChunkConfig) (tok : Tokenizer)
    (segment : PyStr → List PyStr) (tokf : PyStr → List Nat) (text : PyStr)
    (target maxT : Nat)
    (hsmall : ∀ s ∈ segment text, (tokf s).length < maxT)
    (hcap : (segment text).length < cfg.max_num_chunks) :
    chunk_text_pysbd cfg tok segment tokf text target maxT =
      .ok ((sbdSpecChunks target []
          ((segment text).map (fun s => (s, (tokf s).length)))).map Prod.fst,
        (sbdSpecChunks target []
          ((segment text).map (fun s => (s, (tokf s).length)))).map Prod.snd) := by
  have hok := pysbdSegs_small cfg tok cfg.max_num_chunks target maxT tokf
    (segment text)
    { resC := [], resT := [], curL := [], curT := [], sumT := 0 } hsmall
  obtain ⟨h1, h2⟩ := pysbdLoop_spec cfg.max_num_chunks target
    ((segment text).map (fun s => (s, (tokf s).length)))
    { resC := [], resT := [], curL := [], curT := [], sumT := 0 } []
    rfl rfl rfl (by simpa using hcap)
  simp only [List.nil_append] at h1 h2
  unfold chunk_text_pysbd
  rw [hok]
  dsimp only
  rw [h1, h2]

/-- Witness for C7 on the four-segment run with target 5: the code's
output equals the spec-described accumulation. -/
theorem C7_accumulation_witness :
    chunk_text_pysbd smallCfg charTok segFour charTok.encode "x".data 5 1024 =
      .ok ((sbdSpecChunks 5 [] ((segFour "x".data).map
          (fun s => (s, (charTok.encode s).length)))).map Prod.fst,
        (sbdSpecChunks 5 [] ((segFour "x".data).map
          (fun s => (s, (charTok.encode s).length)))).map Prod.snd) :=
  C7_accumulation smallCfg charTok segFour charTok.encode "x".data 5 1024
    (by decide) (by decide)

/-- pySplitNL never returns the empty list (Python str.split always
yields at least one piece). -/
theorem pySplitNL_ne_nil (s : PyStr) : pySplitNL s ≠ [] := by
  cases s with
  | nil => simp [pySplitNL]
  | cons c rest =>
    simp only [pySplitNL]
    split_ifs
    · simp
    · cases pySplitNL rest <;> simp

/-- A successful chunk_text_pysbd run returns at least one chunk (the
final accumulated chunk is always appended). -/
theorem chunk_text_pysbd_ne_nil (cfg : ChunkConfig) (tok : Tokenizer)
    (segment : PyStr → List PyStr) (tokf : PyStr → List Nat) (text : PyStr)
    (target maxT : Nat) (cs : List PyStr) (ts' : List Nat)
    (h : chunk_text_pysbd cfg tok segment tokf text target maxT = .ok (cs, ts')) :
    cs ≠ [] ∧ ts' ≠ [] := by
  unfold chunk_text_pysbd at h
  cases hp : pysbdSegs cfg tok cfg.max_num_chunks target maxT tokf (segment text)
      { resC := [], resT := [], curL := [], curT := [], sumT := 0 } with
  | error e => rw [hp] at h; exact absurd h (by simp)
  | ok stf =>
    rw [hp] at h
    simp only [Except.ok.injEq, Prod.mk.injEq] at h
    obtain ⟨h1, h2⟩ := h
    subst h1 h2
    simp

/-- A successful get_csv_chunks run on a nonempty record list returns at
least one chunk. -/
theorem get_csv_chunks_ne_nil (cfg : ChunkConfig) (tok : Tokenizer) :
    ∀ (records : List PyStr) (maxT : Nat) (cs : List PyStr) (ts' : List Nat),
      records ≠ [] →
      get_csv_chunks cfg tok records maxT = .ok (cs, ts') →
      cs ≠ [] ∧ ts' ≠ [] := by
  intro records maxT cs ts' hne h
  cases records with
  | nil => exact absurd rfl hne
  | cons r rest =>
    unfold get_csv_chunks at h
    cases hrec : get_csv_chunks cfg tok rest maxT with
    | error e => rw [hrec] at h; exact absurd h (by simp)
    | ok p =>
      rw [hrec] at h
      dsimp only at h
      by_cases h1 : (tok.encode r).length > cfg.chunk_size
      · rw [if_pos h1] at h
        by_cases h2 : r.length = 0
        · rw [if_pos h2] at h
          simp at h
        · rw [if_neg h2] at h
          by_cases h3 : csvMaxChars (tok.encode r).length r.length maxT = 0
          · rw [if_pos h3] at h
            simp at h
          · rw [if_neg h3] at h
            rw [Except.ok.injEq, Prod.mk.injEq] at h
            obtain ⟨hc, ht⟩ := h
            subst hc
            subst ht
            have hpieces : splitEvery (csvMaxChars (tok.encode r).length r.length maxT) r ≠ [] :=
              splitEvery_ne_nil _ (Nat.pos_of_ne_zero h3) r
                (by intro h0; rw [h0] at h2; simp at h2)
            constructor
            · simp only [ne_eq, List.append_eq_nil, not_and]
              intro ha
              exact absurd ha hpieces
            · simp only [ne_eq, List.append_eq_nil, not_and]
              intro ha
              rw [List.map_eq_nil_iff] at ha
              exact absurd ha hpieces
      · rw [if_neg h1] at h
        rw [Except.ok.injEq, Prod.mk.injEq] at h
        obtain ⟨hc, ht⟩ := h
        subst hc
        subst ht
        simp

/-- A document's chunk list is empty exactly when its text is empty or
whitespace: both chunker paths always return at least one chunk on any
other text. -/
theorem create_chunks_empty_iff (cfg : ChunkConfig) (tok : Tokenizer)
    (segment : PyStr → List PyStr) (cts : Option Nat) (d : Document)
    (l : List DocumentChunk) (did : PyStr)
    (h : create_document_chunks cfg tok segment d cts = .ok (l, did)) :
    l = [] ↔ pyEmptyOrSpace d.text = true := by
  unfold create_document_chunks at h
  by_cases hws : pyEmptyOrSpace d.text = true
  · rw [if_pos hws] at h
    rw [Except.ok.injEq, Prod.mk.injEq] at h
    obtain ⟨hl, _⟩ := h
    rw [← hl]
    simp [hws]
  · rw [if_neg hws] at h
    simp only [hws, iff_false]
    cases hck :
        (if isTabularMimetype d.mimetype = true then
          get_csv_chunks cfg tok (pySplitNL d.text) 2000
        else
          match d.metadata with
          | none => .error ()
          | some _ =>
            chunk_text_pysbd cfg tok segment tok.encode d.text
              (effectiveChunkSize cfg cts) 1024) with
    | error e => rw [hck] at h; exact absurd h (by simp)
    | ok p =>
      obtain ⟨tc, cnt⟩ := p
      rw [hck] at h
      dsimp only at h
      rw [Except.ok.injEq, Prod.mk.injEq] at h
      obtain ⟨hl, _⟩ := h
      have hne : tc ≠ [] ∧ cnt ≠ [] := by
        by_cases htab : isTabularMimetype d.mimetype = true
        · rw [if_pos htab] at hck
          exact get_csv_chunks_ne_nil cfg tok _ 2000 tc cnt
            (pySplitNL_ne_nil _) hck
        · rw [if_neg htab] at hck
          cases hmd : d.metadata with
          | none =>
            rw [hmd] at hck
            exact absurd hck (by simp)
          | some md =>
            rw [hmd] at hck
            dsimp only at hck
            exact chunk_text_pysbd_ne_nil cfg tok segment tok.encode d.text
              _ 1024 tc cnt hck
      have hlen : l.length = min tc.length cnt.length := by
        rw [← hl]
        simp [List.enum_length]
      have h1 : 0 < tc.length := List.length_pos.mpr hne.1
      have h2 : 0 < cnt.length := List.length_pos.mpr hne.2
      constructor
      · intro hnil
        rw [hnil] at hlen
        simp only [List.length_nil] at hlen
        omega
      · intro hft
        simp at hft

/-- Whitespace documents chunk to the empty list without error. -/
theorem create_chunks_of_ws (cfg : ChunkConfig) (tok : Tokenizer)
    (segment : PyStr → List PyStr) (cts : Option Nat) (d : Document)
    (hws : pyEmptyOrSpace d.text = true) :
    create_document_chunks cfg tok segment d cts = .ok ([], d.id) := by
  unfold create_document_chunks
  rw [if_pos hws]

/-- The dict built by the get_document_chunks loop is never emptied by an
insertion. -/
theorem dictInsert_ne_nil (dict : List (PyStr × List DocumentChunk))
    (k : PyStr) (v : List DocumentChunk) : dictInsert dict k v ≠ [] := by
  unfold dictInsert
  split_ifs with hin
  · cases dict with
    | nil => simp at hin
    | cons a t => simp
  · simp

/-- The accumulated all_chunks list of the loop is empty exactly when it
started empty and every document chunked to nothing. -/
theorem gdcLoop_acc_empty
    (chunkDoc : Document → Except Unit (List DocumentChunk × PyStr)) :
    ∀ (docs : List Document) (dict : List (PyStr × List DocumentChunk))
      (acc : List DocumentChunk)
      (out : List (PyStr × List DocumentChunk) × List DocumentChunk),
      gdcLoop chunkDoc docs dict acc = .ok out →
      (out.2 = [] ↔ (acc = [] ∧ ∀ d ∈ docs, ∃ did, chunkDoc d = .ok ([], did)))
  | [], dict, acc, out => by
    intro h
    simp only [gdcLoop] at h
    rw [Except.ok.injEq] at h
    subst h
    simp
  | doc :: rest, dict, acc, out => by
    intro h
    simp only [gdcLoop] at h
    cases hd : chunkDoc doc with
    | error e => rw [hd] at h; exact absurd h (by simp)
    | ok q =>
      obtain ⟨dc, did⟩ := q
      rw [hd] at h
      dsimp only at h
      rw [gdcLoop_acc_empty chunkDoc rest _ _ _ h]
      constructor
      · rintro ⟨hacc, hrest⟩
        rw [List.append_eq_nil] at hacc
        refine ⟨hacc.1, ?_⟩
        intro d hdm
        rcases List.mem_cons.mp hdm with rfl | hdm
        · exact ⟨did, by rw [hd, hacc.2]⟩
        · exact hrest d hdm
      · rintro ⟨hacc, hall⟩
        obtain ⟨did', hdid'⟩ := hall doc (by simp)
        rw [hd, Except.ok.injEq, Prod.mk.injEq] at hdid'
        refine ⟨?_, fun d hdm => hall d (List.mem_cons_of_mem _ hdm)⟩
        rw [hacc, hdid'.1]
        rfl
  
/-- The loop's dict output is nonempty whenever it starts nonempty or at
least one document was processed. -/
theorem gdcLoop_dict_ne_nil
    (chunkDoc : Document → Except Unit (List DocumentChunk × PyStr)) :
    ∀ (docs : List Document) (dict : List (PyStr × List DocumentChunk))
      (acc : List DocumentChunk)
      (out : List (PyStr × List DocumentChunk) × List DocumentChunk),
      gdcLoop chunkDoc docs dict acc = .ok out →
      (dict ≠ [] ∨ docs ≠ []) → out.1 ≠ []
  | [], dict, acc, out => by
    intro h hne
    simp only [gdcLoop] at h
    rw [Except.ok.injEq] at h
    subst h
    rcases hne with hne | hne
    · exact hne
    · exact absurd rfl hne
  | doc :: rest, dict, acc, out => by
    intro h hne
    simp only [gdcLoop] at h
    cases hd : chunkDoc doc with
    | error e => rw [hd] at h; exact absurd h (by simp)
    | ok q =>
      obtain ⟨dc, did⟩ := q
      rw [hd] at h
      dsimp only at h
      exact gdcLoop_dict_ne_nil chunkDoc rest _ _ _ h
        (Or.inl (dictInsert_ne_nil _ _ _))

/-- On an all-whitespace batch, the loop succeeds and adds nothing to the
accumulated chunks. -/
theorem gdcLoop_ok_of_ws (cfg : ChunkConfig) (tok : Tokenizer)
    (segment : PyStr → List PyStr) (cts : Option Nat) :
    ∀ (docs : List Document) (dict : List (PyStr × List DocumentChunk))
      (acc : List DocumentChunk),
      (∀ d ∈ docs, pyEmptyOrSpace d.text = true) →
      ∃ dict', gdcLoop (fun d => create_document_chunks cfg tok segment d cts)
        docs dict acc = .ok (dict', acc)
  | [], dict, acc => by
    intro _
    exact ⟨dict, rfl⟩
  | doc :: rest, dict, acc => by
    intro hall
    simp only [gdcLoop]
    rw [create_chunks_of_ws cfg tok segment cts doc (hall doc (by simp))]
    dsimp only
    rw [List.append_nil]
    exact gdcLoop_ok_of_ws cfg tok segment cts rest _ acc
      (fun d hd => hall d (List.mem_cons_of_mem _ hd))

/-- upsert raises the no-usable-content ValueError exactly when the
chunk dict comes back empty. -/
theorem upsertWith_noUsable_iff
    (chunkDoc : Document → Except Unit (List DocumentChunk × PyStr))
    (ts : PyStr → Nat) (docs : List Document) (st : Store) :
    (upsertWith chunkDoc ts docs st).2 = .error .noUsable ↔
      getDocumentChunksWith chunkDoc docs = .ok [] := by
  unfold upsertWith
  cases hg : getDocumentChunksWith chunkDoc docs with
  | error e => simp
  | ok dict =>
    cases dict with
    | nil => simp
    | cons a d => simp

/-- The chunk dict is empty exactly when every document of the batch has
empty or whitespace text (concrete pipeline instantiation). -/
theorem gdc_nil_iff (cfg : ChunkConfig) (tok : Tokenizer)
    (segment : PyStr → List PyStr) (cts : Option Nat) (docs : List Document) :
    getDocumentChunksWith
        (fun d => create_document_chunks cfg tok segment d cts) docs =
        .ok [] ↔
      ∀ d ∈ docs, pyEmptyOrSpace d.text = true := by
  unfold getDocumentChunksWith
  cases hloop : gdcLoop (fun d => create_document_chunks cfg tok segment d cts)
      docs [] [] with
  | error e =>
    constructor
    · intro h
      exact absurd h (by simp)
    · intro hall
      obtain ⟨dict', hok⟩ := gdcLoop_ok_of_ws cfg tok segment cts docs [] [] hall
      rw [hloop] at hok
      exact absurd hok (by simp)
  | ok out =>
    obtain ⟨dict, acc⟩ := out
    dsimp only
    have hiff := gdcLoop_acc_empty _ docs [] [] (dict, acc) hloop
    constructor
    · intro h
      by_cases he : acc.isEmpty = true
      · have hacc : acc = [] := by simpa [List.isEmpty_iff] using he
        obtain ⟨_, hall⟩ := hiff.mp hacc
        intro d hd
        obtain ⟨did, hdid⟩ := hall d hd
        exact (create_chunks_empty_iff cfg tok segment cts d [] did hdid).mp rfl
      · rw [if_neg he] at h
        rw [Except.ok.injEq] at h
        exfalso
        refine gdcLoop_dict_ne_nil _ docs [] [] (dict, acc) hloop (Or.inr ?_) h
        intro hdocs
        subst hdocs
        simp only [gdcLoop, Except.ok.injEq] at hloop
        cases hloop
        simp at he
    · intro hall
      have hacc : acc = [] := by
        refine hiff.mpr ⟨rfl, ?_⟩
        intro d hd
        exact ⟨d.id, create_chunks_of_ws cfg tok segment cts d (hall d hd)⟩
      rw [hacc]
      simp

/-- A chunk surviving a store filter was already stored. -/
theorem hnsqliteDelete_subset (ts : PyStr → Nat) (s : Store)
    (ids : Option (List PyStr)) (fil : Option DocumentMetadataFilter)
    (da : Option Bool) :
    ∀ c ∈ (hnsqliteDelete ts s ids fil da).1, c ∈ s := by
  intro c hc
  unfold hnsqliteDelete at hc
  by_cases hda : da = some true
  · rw [if_pos hda] at hc
    simp at hc
  · rw [if_neg hda] at hc
    dsimp only at hc
    have hst1 : ∀ x : StoredChunk,
        x ∈ (if getHnsqliteFilter ts fil ≠ [] then
          (if (getHnsqliteFilter ts fil).length = 1 ∧
              hdictHasKey (getHnsqliteFilter ts fil) "document_id" = true then
            match hdictGet (getHnsqliteFilter ts fil) "document_id" with
            | some (.eq (.s v)) => collectionDeleteDocIds s [v]
            | _ => s
          else collectionDeleteFilter s (getHnsqliteFilter ts fil))
        else s) → x ∈ s := by
      intro x hx
      split_ifs at hx
      · rcases hget : hdictGet (getHnsqliteFilter ts fil) "document_id" with _ | hv
        · rw [hget] at hx
          exact hx
        · rcases hv with ⟨mv⟩ | ⟨lo, hi⟩
          · rcases mv with ⟨v⟩ | ⟨n⟩
            · rw [hget] at hx
              exact List.mem_of_mem_filter hx
            · rw [hget] at hx
              exact hx
          · rw [hget] at hx
            exact hx
      · exact List.mem_of_mem_filter hx
      · exact hx
    rcases ids with _ | l
    · exact hst1 c hc
    · dsimp only at hc
      by_cases hl : l.isEmpty = true
      · rw [if_pos hl] at hc
        exact hst1 c hc
      · rw [if_neg hl] at hc
        exact hst1 c (List.mem_of_mem_filter hc)

/-- The delete-before-upsert pass only removes chunks. -/
theorem upsertDeletes_subset (ts : PyStr → Nat) :
    ∀ (docs : List Document) (st : Store) (c : StoredChunk),
      c ∈ upsertDeletes ts docs st → c ∈ st
  | [], st, c => by
    intro hc
    simpa [upsertDeletes] using hc
  | d :: rest, st, c => by
    intro hc
    unfold upsertDeletes at hc
    rw [List.foldl_cons] at hc
    have hc' := upsertDeletes_subset ts rest _ c hc
    by_cases hid : d.id.isEmpty = true
    · rw [if_pos hid] at hc'
      exact hc'
    · rw [if_neg hid] at hc'
      exact hnsqliteDelete_subset ts st _ _ _ c hc'

/-- Claim C8 (amended): upsert raises the no-usable-content error
exactly when every document's text is empty or whitespace (both chunker
paths always emit at least one chunk otherwise, so the minimum-length
filter plays no role in this check — see the counterexample); in the
error case the store holds no chunk that was not already stored, and a
batch with any chunk at all never raises this error.  A metadata-less
document with non-whitespace text on the non-tabular path makes the
pipeline raise AttributeError instead — a different error, never the
no-usable-content one, and its text is not whitespace, so the
equivalence holds unconditionally. -/
theorem C8_no_usable_amended (cfg : ChunkConfig) (tok : Tokenizer)
    (segment : PyStr → List PyStr) (ts : PyStr → Nat) (cts : Option Nat)
    (docs : List Document) (st : Store) :
    ((upsertModel cfg tok segment ts cts docs st).2 = .error .noUsable ↔
      ∀ d ∈ docs, pyEmptyOrSpace d.text = true) ∧
    ((upsertModel cfg tok segment ts cts docs st).2 = .error .noUsable →
      ∀ c ∈ (upsertModel cfg tok segment ts cts docs st).1, c ∈ st) := by
  constructor
  · rw [upsertModel, upsertWith_noUsable_iff, gdc_nil_iff]
  · intro herr c hc
    unfold upsertModel upsertWith at herr hc
    cases hg : getDocumentChunksWith
        (fun d => create_document_chunks cfg tok segment d cts) docs with
    | error e =>
      rw [hg] at herr
      simp at herr
    | ok dict =>
      cases dict with
      | nil =>
        rw [hg] at hc
        dsimp only at hc
        exact upsertDeletes_subset ts docs st c hc
      | cons a d =>
        rw [hg] at herr
        simp at herr

/-- Witness for the amended C8 theorem: a batch holding one whitespace
document makes upsert raise the no-usable-content error. -/
theorem C8_no_usable_amended_witness :
    (upsertModel defaultChunkConfig charTok segWhole (fun _ => 0) none
      [{ id := "w".data, text := " ".data, metadata := none, mimetype := none }]
      []).2 = .error .noUsable :=
  (C8_no_usable_amended defaultChunkConfig charTok segWhole (fun _ => 0) none
    [{ id := "w".data, text := " ".data, metadata := none, mimetype := none }]
    []).1.mpr (by decide)

/-- Every entry contributed by a metadata field carries that field's
name as its key. -/
theorem metaEntryOf_key (ts : PyStr → Nat) (kv : String × Option PyStr) :
    ∀ e ∈ metaEntryOf ts kv, e.1 = kv.1 := by
  intro e he
  unfold metaEntryOf at he
  rcases kv with ⟨k, _ | v⟩
  · simp at he
  · dsimp only at he
    split_ifs at he <;> simp_all

/-- Looking a key up past entries generated from differently-named
fields reaches the tail. -/
theorem mdictLookup_flatMap_entries (ts : PyStr → Nat)
    (items : List (String × Option PyStr)) (k : String)
    (rest : List (String × MetaVal)) (h : ∀ kv ∈ items, kv.1 ≠ k) :
    mdictLookup (items.flatMap (metaEntryOf ts) ++ rest) k =
      mdictLookup rest k := by
  apply mdictLookup_append_right
  intro e he
  obtain ⟨kv, hkv, hekv⟩ := List.mem_flatMap.mp he
  rw [metaEntryOf_key ts kv e hekv]
  exact h kv hkv

/-- The stored metadata of an inserted chunk records the chunk's
document_id under the document_id key. -/
theorem mdictLookup_storedOfChunk (ts : PyStr → Nat) (did : PyStr)
    (c : DocumentChunk) :
    mdictLookup (storedOfChunk ts did c).metadata "document_id" =
      some (.s c.metadata.document_id) := by
  unfold storedOfChunk
  dsimp only
  unfold hnsqliteMetadata
  rw [foldl_append_eq, List.nil_append]
  have hsplit : metadataItems c.metadata =
      [("source", c.metadata.source.map sourceStr),
       ("source_id", c.metadata.source_id),
       ("url", c.metadata.url),
       ("created_at", c.metadata.created_at),
       ("author", c.metadata.author),
       ("title", c.metadata.title),
       ("description", c.metadata.description),
       ("language", c.metadata.language),
       ("version", c.metadata.version)] ++
      [("document_id", some c.metadata.document_id)] := rfl
  rw [hsplit, List.flatMap_append, List.append_assoc]
  rw [mdictLookup_flatMap_entries]
  · simp [metaEntryOf, mdictLookup]
  · intro kv hkv
    simp only [List.mem_cons, List.not_mem_nil, or_false] at hkv
    rcases hkv with rfl | rfl | rfl | rfl | rfl | rfl | rfl | rfl | rfl <;> simp

/-- The per-document delete of DataStore.upsert dispatches to the direct
delete-by-document-id of the backend. -/
theorem hnsqliteDelete_docfilter (ts : PyStr → Nat) (st : Store) (id : PyStr) :
    hnsqliteDelete ts st none (some (filterOfDocId id)) (some false) =
      (collectionDeleteDocIds st [id], true) := by
  have hf : getHnsqliteFilter ts (some (filterOfDocId id)) =
      [("document_id", .eq (.s id))] := rfl
  unfold hnsqliteDelete
  rw [if_neg (by simp)]
  dsimp only
  rw [hf]
  simp [hdictHasKey, hdictGet]

/-- The shape of one successful single-document upsert: the document's
old chunks are deleted and the freshly produced chunks appended. -/
theorem upsert_single_ok
    (chunkDoc : Document → Except Unit (List DocumentChunk × PyStr))
    (ts : PyStr → Nat) (d : Document) (st : Store) (l : List DocumentChunk)
    (hid : d.id ≠ []) (hchunk : chunkDoc d = .ok (l, d.id)) (hne : l ≠ []) :
    upsertWith chunkDoc ts [d] st =
      (collectionDeleteDocIds st [d.id] ++ l.map (storedOfChunk ts d.id),
        .ok [d.id]) := by
  have hdel : upsertDeletes ts [d] st = collectionDeleteDocIds st [d.id] := by
    unfold upsertDeletes
    simp only [List.foldl_cons, List.foldl_nil]
    rw [if_neg (by simpa [List.isEmpty_iff] using hid)]
    rw [hnsqliteDelete_docfilter]
  have hgdc : getDocumentChunksWith chunkDoc [d] = .ok [(d.id, l)] := by
    unfold getDocumentChunksWith gdcLoop
    rw [hchunk]
    dsimp only
    unfold gdcLoop
    simp [dictInsert, hne]
  unfold upsertWith
  rw [hdel, hgdc]
  cases l with
  | nil => exact absurd rfl hne
  | cons a t =>
    dsimp only
    unfold hnsqliteUpsertInsert
    simp

/-- Claim C1: upsert is replace-by-document-id.  For a document with a
non-empty id whose chunking succeeds with a non-empty chunk list whose
metadata carries the document id, upserting twice from a well-formed
store leaves exactly the second run's chunks stored under that document
id (same count and same chunk ids as run 2, not the union of the runs),
and each call returns the processed document id list. -/
theorem C1_upsert_replaces
    (chunkDoc : Document → Except Unit (List DocumentChunk × PyStr))
    (ts : PyStr → Nat) (d : Document) (st : Store) (l : List DocumentChunk)
    (hid : d.id ≠ [])
    (hwf : WellFormedStore st)
    (hchunk : chunkDoc d = .ok (l, d.id))
    (hne : l ≠ [])
    (hmeta : ∀ c ∈ l, c.metadata.document_id = d.id) :
    (upsertWith chunkDoc ts [d] st).2 = .ok [d.id] ∧
    (upsertWith chunkDoc ts [d] (upsertWith chunkDoc ts [d] st).1).2 =
      .ok [d.id] ∧
    chunksForDoc d.id
        (upsertWith chunkDoc ts [d] (upsertWith chunkDoc ts [d] st).1).1 =
      l.map (storedOfChunk ts d.id) ∧
    (chunksForDoc d.id
        (upsertWith chunkDoc ts [d] (upsertWith chunkDoc ts [d] st).1).1).length =
      l.length ∧
    (chunksForDoc d.id
        (upsertWith chunkDoc ts [d] (upsertWith chunkDoc ts [d] st).1).1).map
        (fun c => c.chunkId) =
      l.map (fun c => c.id) := by
  have h1 := upsert_single_ok chunkDoc ts d st l hid hchunk hne
  have h2 := upsert_single_ok chunkDoc ts d
    (collectionDeleteDocIds st [d.id] ++ l.map (storedOfChunk ts d.id))
    l hid hchunk hne
  have hmapped : ∀ x ∈ l.map (storedOfChunk ts d.id),
      mdictLookup x.metadata "document_id" = some (.s d.id) ∧ x.docId = d.id := by
    intro x hx
    obtain ⟨c, hcl, rfl⟩ := List.mem_map.mp hx
    refine ⟨?_, rfl⟩
    rw [mdictLookup_storedOfChunk, hmeta c hcl]
  have hkey : chunksForDoc d.id
      (collectionDeleteDocIds
        (collectionDeleteDocIds st [d.id] ++ l.map (storedOfChunk ts d.id))
        [d.id] ++ l.map (storedOfChunk ts d.id)) =
      l.map (storedOfChunk ts d.id) := by
    unfold chunksForDoc
    rw [List.filter_append]
    have hleft : (collectionDeleteDocIds
        (collectionDeleteDocIds st [d.id] ++ l.map (storedOfChunk ts d.id))
        [d.id]).filter
        (fun c => decide (mdictLookup c.metadata "document_id" =
          some (.s d.id))) = [] := by
      rw [List.filter_eq_nil_iff]
      intro x hx
      unfold collectionDeleteDocIds at hx
      rw [List.mem_filter] at hx
      obtain ⟨hx1, hxq⟩ := hx
      have hxid : x.docId ≠ d.id := by
        simp only [Bool.not_eq_eq_eq_not, Bool.not_true, List.contains_cons,
          List.contains_nil, Bool.or_false] at hxq
        intro habs
        rw [habs] at hxq
        simp at hxq
      rcases List.mem_append.mp hx1 with hx1 | hx1
      · have hxst : x ∈ st := List.mem_of_mem_filter hx1
        rw [decide_eq_true_eq, hwf x hxst]
        intro habs
        rw [Option.some.injEq, MetaVal.s.injEq] at habs
        exact hxid habs
      · exact absurd (hmapped x hx1).2 hxid
    have hright : (l.map (storedOfChunk ts d.id)).filter
        (fun c => decide (mdictLookup c.metadata "document_id" =
          some (.s d.id))) = l.map (storedOfChunk ts d.id) := by
      rw [List.filter_eq_self]
      intro x hx
      rw [decide_eq_true_eq]
      exact (hmapped x hx).1
    rw [hleft, hright, List.nil_append]
  rw [h1]
  dsimp only
  rw [h2]
  dsimp only
  refine ⟨rfl, rfl, hkey, by rw [hkey, List.length_map], ?_⟩
  rw [hkey, List.map_map]
  rfl

/-- The fixed chunk produced by the witness chunker. -/
def witnessChunk : DocumentChunk :=
  { id := "d_0".data
    text := "hello".data
    metadata := { toDocumentMetadata := emptyDocumentMetadata
                  document_id := "d".data }
    token_count := some 1 }

/-- A deterministic single-chunk ingestion pipeline used to witness the
replace semantics. -/
def witnessChunkDoc : Document → Except Unit (List DocumentChunk × PyStr) :=
  fun doc => .ok ([witnessChunk], doc.id)

/-- The witness document. -/
def docD : Document :=
  { id := "d".data, text := "hello".data, metadata := none, mimetype := none }

/-- Witness for C1: upserting the same document twice into the empty
store keeps exactly the one chunk of the second run. -/
theorem C1_upsert_replaces_witness :
    (upsertWith witnessChunkDoc (fun _ => 0) [docD] []).2 = .ok ["d".data] ∧
    (upsertWith witnessChunkDoc (fun _ => 0) [docD]
      (upsertWith witnessChunkDoc (fun _ => 0) [docD] []).1).2 =
      .ok ["d".data] ∧
    chunksForDoc "d".data
        (upsertWith witnessChunkDoc (fun _ => 0) [docD]
          (upsertWith witnessChunkDoc (fun _ => 0) [docD] []).1).1 =
      [witnessChunk].map (storedOfChunk (fun _ => 0) "d".data) ∧
    (chunksForDoc "d".data
        (upsertWith witnessChunkDoc (fun _ => 0) [docD]
          (upsertWith witnessChunkDoc (fun _ => 0) [docD] []).1).1).length =
      [witnessChunk].length ∧
    (chunksForDoc "d".data
        (upsertWith witnessChunkDoc (fun _ => 0) [docD]
          (upsertWith witnessChunkDoc (fun _ => 0) [docD] []).1).1).map
        (fun c => c.chunkId) =
      [witnessChunk].map (fun c => c.id) :=
  C1_upsert_replaces witnessChunkDoc (fun _ => 0) docD [] [witnessChunk]
    (by decide) (fun c hc => absurd hc (by simp)) rfl (by simp)
    (by decide)
